import Mathlib

/-!
Verification development for the GitHub repository analyzer
(`src/lib/githubAnalyzer.ts`).

The TypeScript source is shallowly embedded: JS numbers are modelled as `ℚ`
(all constants appearing in the analyzer are exactly representable),
JS strings as `String`, and every network / external effect as an explicit
environment (`AnalyzerEnv`) of fetch oracles, so that each function of the
source becomes a pure Lean function.  Regular-expression tests are embedded
by a small nondeterministic matcher (`Rx`) whose patterns transliterate the
regex literals of the source.
-/

/-! ### Character classes (JS regex semantics) -/

/-- JS `\s` whitespace class (the characters relevant to the analyzer). -/
def isJsSpace (c : Char) : Bool :=
  c = ' ' || c = '\t' || c = '\n' || c = '\x0b' || c = '\x0c' || c = '\r' ||
  c = '\u00a0' || c = '\u1680' || ('\u2000' ≤ c && c ≤ '\u200a') ||
  c = '\u2028' || c = '\u2029' || c = '\u202f' || c = '\u205f' ||
  c = '\u3000' || c = '\ufeff'

/-- JS `\w` word-character class `[A-Za-z0-9_]`. -/
def isJsWordChar (c : Char) : Bool :=
  ('a' ≤ c && c ≤ 'z') || ('A' ≤ c && c ≤ 'Z') || ('0' ≤ c && c ≤ '9') || c = '_'

/-- JS `.` (dot without the `s` flag): any character except a line terminator. -/
def isJsDot (c : Char) : Bool :=
  !(c = '\n' || c = '\r' || c = '\u2028' || c = '\u2029')

/-- Character class of the invisible-character regex
`/[\u200b-\u200d\ufeff\u2060\u180e\u2061-\u2064]/`. -/
def isInvisibleChar (c : Char) : Bool :=
  ('\u200b' ≤ c && c ≤ '\u200d') || c = '\ufeff' || c = '\u2060' ||
  c = '\u180e' || ('\u2061' ≤ c && c ≤ '\u2064')

/-- Character class of the emoji regex
`/[\u{1F600}-\u{1F64F}]|[\u{1F300}-\u{1F5FF}]|[\u{1F680}-\u{1F6FF}]|[\u{1F1E0}-\u{1F1FF}]|[\u{2600}-\u{26FF}]|[\u{2700}-\u{27BF}]/u`. -/
def isEmojiChar (c : Char) : Bool :=
  (0x1F600 ≤ c.toNat && c.toNat ≤ 0x1F64F) ||
  (0x1F300 ≤ c.toNat && c.toNat ≤ 0x1F5FF) ||
  (0x1F680 ≤ c.toNat && c.toNat ≤ 0x1F6FF) ||
  (0x1F1E0 ≤ c.toNat && c.toNat ≤ 0x1F1FF) ||
  (0x2600 ≤ c.toNat && c.toNat ≤ 0x26FF) ||
  (0x2700 ≤ c.toNat && c.toNat ≤ 0x27BF)

/-- Test of `/[\u200b-\u200d\ufeff\u2060\u180e\u2061-\u2064]/`:
the message contains an invisible Unicode character. -/
def hasInvisibleChars (s : String) : Bool := s.data.any isInvisibleChar

/-- `message.test` of the emoji regex: the message contains an emoji code point. -/
def hasEmoji (s : String) : Bool := s.data.any isEmojiChar

/-! ### A small regex matcher

The analyzer's fixed regex literals are built from literals, alternations of
literals, character classes with `+`/`*`, and one optional group, so a tiny
nondeterministic matcher that returns every possible remainder suffices to
decide `RegExp.test`. -/

/-- Regex abstract syntax sufficient for the analyzer's patterns. -/
inductive Rx where
  | eps : Rx
  | cls (p : Char → Bool) : Rx
  | plus (p : Char → Bool) : Rx
  | star (p : Char → Bool) : Rx
  | cat (a b : Rx) : Rx
  | alt (a b : Rx) : Rx
  | opt (a : Rx) : Rx

/-- Remainders after consuming one or more leading characters satisfying `p`. -/
def suffixesAfter (p : Char → Bool) : List Char → List (List Char)
  | [] => []
  | c :: cs => if p c then cs :: suffixesAfter p cs else []

/-- All remainders of the input after a match of the pattern. -/
def Rx.matchRem : Rx → List Char → List (List Char)
  | .eps, cs => [cs]
  | .cls _, [] => []
  | .cls p, c :: cs => if p c then [cs] else []
  | .plus p, cs => suffixesAfter p cs
  | .star p, cs => cs :: suffixesAfter p cs
  | .cat a b, cs => ((a.matchRem cs).map b.matchRem).flatten
  | .alt a b, cs => a.matchRem cs ++ b.matchRem cs
  | .opt a, cs => cs :: a.matchRem cs

/-- Single literal character. -/
def Rx.chr (c : Char) : Rx := .cls (· = c)

/-- Case-insensitive literal (the `i` flag; the analyzer's literals are ASCII). -/
def Rx.litCI (s : String) : Rx :=
  s.data.foldr (fun c r => .cat (.cls (fun x => x.toLower = c.toLower)) r) .eps

/-- Alternation of a list of patterns. -/
def Rx.altL (l : List Rx) : Rx := l.foldr .alt (.cls (fun _ => false))

/-- Case-insensitive alternation of literal strings. -/
def Rx.anyLitCI (l : List String) : Rx := .altL (l.map .litCI)

/-- `^pat$`: the whole string matches. -/
def Rx.testFull (r : Rx) (s : String) : Bool := (r.matchRem s.data).any List.isEmpty

/-- `^pat`: a match starting at the beginning of the string. -/
def Rx.testAtStart (r : Rx) (s : String) : Bool := !(r.matchRem s.data).isEmpty

/-- Unanchored `pat`: a match starting anywhere in the string. -/
def Rx.testSearch (r : Rx) (s : String) : Bool :=
  s.data.tails.any (fun t => !(r.matchRem t).isEmpty)

/-- Case-insensitive prefix match of a literal word at the head of `cs`,
returning the remainder. -/
def matchLitCI : List Char → List Char → Option (List Char)
  | [], cs => some cs
  | _, [] => none
  | w :: ws, c :: cs => if c.toLower = w.toLower then matchLitCI ws cs else none

/-- Does one of `words` match at the head of `cs` with a `\b` boundary after it? -/
def wordAtHere (words : List String) (cs : List Char) : Bool :=
  words.any fun w =>
    match matchLitCI w.data cs with
    | some [] => true
    | some (c :: _) => !isJsWordChar c
    | none => false

/-- Scan for `/\b(words)\b/i`: `prev` is the character before the current
position (none at the start of the string). -/
def wordScan (words : List String) : Option Char → List Char → Bool
  | _, [] => false
  | prev, c :: cs =>
    (match prev with
     | none => true
     | some p => !isJsWordChar p) && wordAtHere words (c :: cs)
    || wordScan words (some c) cs

/-- `RegExp.test` for a pattern of the form `/\b(w1|w2|…)\b/i`. -/
def testWordCI (words : List String) (s : String) : Bool :=
  wordScan words none s.data

/-! ### Commit-message classifier (`analyzeCommitMessage`) -/

/-- One entry of the `aiPatterns` array: the regex source text (used in the
recorded reason string) and its `test` function. -/
structure AiPattern where
  source : String
  matchesMsg : String → Bool

/-- `/^(feat|fix|docs|style|refactor|test|chore|ci|build|perf)(\(.+\))?\:\s.+$/i` -/
def aiPattern1 : AiPattern :=
  { source := "^(feat|fix|docs|style|refactor|test|chore|ci|build|perf)(\\(.+\\))?\\:\\s.+$"
    matchesMsg := Rx.testFull
      (.cat (.anyLitCI ["feat", "fix", "docs", "style", "refactor", "test",
                        "chore", "ci", "build", "perf"])
        (.cat (.opt (.cat (.chr '(') (.cat (.plus isJsDot) (.chr ')'))))
          (.cat (.chr ':') (.cat (.cls isJsSpace) (.plus isJsDot))))) }

/-- `/^(add|update|implement|create|fix|remove|delete|improve)\s/i` -/
def aiPattern2 : AiPattern :=
  { source := "^(add|update|implement|create|fix|remove|delete|improve)\\s"
    matchesMsg := Rx.testAtStart
      (.cat (.anyLitCI ["add", "update", "implement", "create", "fix",
                        "remove", "delete", "improve"]) (.cls isJsSpace)) }

/-- `/^(initial commit|first commit)$/i` -/
def aiPattern3 : AiPattern :=
  { source := "^(initial commit|first commit)$"
    matchesMsg := Rx.testFull (.anyLitCI ["initial commit", "first commit"]) }

/-- `/update\s+(readme|documentation)/i` -/
def aiPattern4 : AiPattern :=
  { source := "update\\s+(readme|documentation)"
    matchesMsg := Rx.testSearch
      (.cat (.litCI "update") (.cat (.plus isJsSpace)
        (.anyLitCI ["readme", "documentation"]))) }

/-- `/^(resolve|address)\s+issue/i` -/
def aiPattern5 : AiPattern :=
  { source := "^(resolve|address)\\s+issue"
    matchesMsg := Rx.testAtStart
      (.cat (.anyLitCI ["resolve", "address"])
        (.cat (.plus isJsSpace) (.litCI "issue"))) }

/-- `/minor\s+(changes|updates|fixes)/i` -/
def aiPattern6 : AiPattern :=
  { source := "minor\\s+(changes|updates|fixes)"
    matchesMsg := Rx.testSearch
      (.cat (.litCI "minor") (.cat (.plus isJsSpace)
        (.anyLitCI ["changes", "updates", "fixes"]))) }

/-- `/code\s+(cleanup|optimization|refactoring)/i` -/
def aiPattern7 : AiPattern :=
  { source := "code\\s+(cleanup|optimization|refactoring)"
    matchesMsg := Rx.testSearch
      (.cat (.litCI "code") (.cat (.plus isJsSpace)
        (.anyLitCI ["cleanup", "optimization", "refactoring"]))) }

/-- `/improve\s+(performance|functionality|user\s+experience)/i` -/
def aiPattern8 : AiPattern :=
  { source := "improve\\s+(performance|functionality|user\\s+experience)"
    matchesMsg := Rx.testSearch
      (.cat (.litCI "improve") (.cat (.plus isJsSpace)
        (.altL [.litCI "performance", .litCI "functionality",
                .cat (.litCI "user") (.cat (.plus isJsSpace) (.litCI "experience"))]))) }

/-- `/enhance\s+(feature|component|ui)/i` -/
def aiPattern9 : AiPattern :=
  { source := "enhance\\s+(feature|component|ui)"
    matchesMsg := Rx.testSearch
      (.cat (.litCI "enhance") (.cat (.plus isJsSpace)
        (.anyLitCI ["feature", "component", "ui"]))) }

/-- `/update\s+(dependencies|packages)/i` -/
def aiPattern10 : AiPattern :=
  { source := "update\\s+(dependencies|packages)"
    matchesMsg := Rx.testSearch
      (.cat (.litCI "update") (.cat (.plus isJsSpace)
        (.anyLitCI ["dependencies", "packages"]))) }

/-- The `aiPatterns` array, in source order. -/
def aiPatterns : List AiPattern :=
  [aiPattern1, aiPattern2, aiPattern3, aiPattern4, aiPattern5,
   aiPattern6, aiPattern7, aiPattern8, aiPattern9, aiPattern10]

/-- The `perfectGrammarIndicators` array:
`/^\w[^.!?]*[.!?]$/`, `/\b(implement|establish|utilize|facilitate|optimize)\b/i`,
`/\b(furthermore|additionally|moreover|consequently)\b/i`. -/
def perfectGrammarIndicators : List (String → Bool) :=
  [Rx.testFull (.cat (.cls isJsWordChar)
      (.cat (.star (fun c => !(c = '.' || c = '!' || c = '?')))
        (.cls (fun c => c = '.' || c = '!' || c = '?')))),
   testWordCI ["implement", "establish", "utilize", "facilitate", "optimize"],
   testWordCI ["furthermore", "additionally", "moreover", "consequently"]]

/-- Patterns of `aiPatterns` matching the message, in source order. -/
def matchedAiPatterns (message : String) : List AiPattern :=
  aiPatterns.filter (fun p => p.matchesMsg message)

/-- `grammarScore`: number of matching `perfectGrammarIndicators`. -/
def grammarScore (message : String) : Nat :=
  (perfectGrammarIndicators.filter (fun p => p message)).length

/-- Result record of `analyzeCommitMessage`. -/
structure CommitMessageAnalysis where
  isAI : Bool
  confidence : ℚ
  reasons : List String
deriving DecidableEq

/-- `analyzeCommitMessage`: heuristic classification of one commit message. -/
def analyzeCommitMessage (message : String) : CommitMessageAnalysis :=
  if hasInvisibleChars message then
    { isAI := true, confidence := 1,
      reasons := ["Contains invisible Unicode characters"] }
  else
    let emojiHit := hasEmoji message
    let confidence1 : ℚ := if emojiHit then max 0 (9/10) else 0
    let matched := matchedAiPatterns message
    let patternMatches := matched.length
    let confidence2 : ℚ :=
      if patternMatches > 0 then
        max confidence1 (min (8/10) (3/10 + (patternMatches : ℚ) * (15/100)))
      else confidence1
    let longMsg := message.length > 100
    let confidence3 : ℚ := if longMsg then max confidence2 (6/10) else confidence2
    let g := grammarScore message
    let confidence4 : ℚ :=
      if g > 0 then max confidence3 (1/2 + (g : ℚ) * (1/10)) else confidence3
    { isAI := decide (confidence4 > 1/2)
      confidence := confidence4
      reasons :=
        (if emojiHit then ["Contains emojis"] else []) ++
        matched.map (fun p => "Matches AI pattern: " ++ p.source) ++
        (if longMsg then ["Unusually long commit message"] else []) ++
        List.replicate g "Perfect grammar/formal language" }

/-- The confidence candidates of the triggered signals, in trigger order
(spec §4.2: invisible short-circuits with candidate 1.0). -/
def signalCandidates (message : String) : List ℚ :=
  if hasInvisibleChars message then [1]
  else
    (if hasEmoji message then [9/10] else []) ++
    (if (matchedAiPatterns message).length > 0 then
      [min (8/10) (3/10 + ((matchedAiPatterns message).length : ℚ) * (15/100))]
     else []) ++
    (if message.length > 100 then [6/10] else []) ++
    (if grammarScore message > 0 then [1/2 + (grammarScore message : ℚ) * (1/10)]
     else [])

/-! ### Generic helpers shared by the embedding -/

/-- Substring containment on code points (JS `String.prototype.includes`). -/
def containsSub (s pat : String) : Bool :=
  s.data.tails.any (fun t => pat.data.isPrefixOf t)

/-- Code-point suffix test (used for the `$`-anchored literal regex patterns). -/
def endsWithSub (s pat : String) : Bool :=
  pat.data.reverse.isPrefixOf s.data.reverse

/-- `date.split('T')[0]`: the part of the string before the first `T`. -/
def dateOnly (s : String) : String := ⟨s.data.takeWhile (fun c => c ≠ 'T')⟩

/-- JS `Math.round`: round half toward positive infinity. -/
def jsRound (x : ℚ) : ℤ := ⌊x + 1/2⌋

/-- Stable insertion of `a` into `l`, keeping `a` before the first element `b`
with `le a b` (matching the stable-sort contract of `Array.prototype.sort`
for the comparator `le a b ↔ cmp a b ≤ 0`). -/
def insertOrd (le : α → α → Bool) (a : α) : List α → List α
  | [] => [a]
  | b :: bs => if le a b then a :: b :: bs else b :: insertOrd le a bs

/-- Stable sort by a boolean comparator (models `Array.prototype.sort`). -/
def insertionSortBy (le : α → α → Bool) : List α → List α
  | [] => []
  | a :: as => insertOrd le a (insertionSortBy le as)

/-- Decimal digits of `n`, most significant first (`fuel`-structured so the
definition evaluates in the kernel; `fuel = n + 1` always suffices). -/
def decDigitsAux : Nat → Nat → List Char
  | 0, _ => []
  | fuel + 1, n =>
    if n < 10 then [Nat.digitChar n]
    else decDigitsAux fuel (n / 10) ++ [Nat.digitChar (n % 10)]

/-- Decimal rendering of a natural number, modelling the JS template
interpolation `${n}` for a non-negative integer. -/
def natDecimal (n : Nat) : String := ⟨decDigitsAux (n + 1) n⟩

/-! ### Data model of `analyzeCommitHistory` -/

/-- `{name, email, date}` author/committer record of a commit. -/
structure CommitPerson where
  name : String
  email : String
  date : String
deriving DecidableEq

/-- `{additions, deletions, total}` stats of a commit. -/
structure CommitStatTotals where
  additions : Nat
  deletions : Nat
  total : Nat
deriving DecidableEq

/-- `CommitAnalysis`: a classified commit. -/
structure CommitAnalysis where
  sha : String
  message : String
  author : CommitPerson
  committer : CommitPerson
  stats : CommitStatTotals
  isAI : Bool
  confidence : ℚ
  reasons : List String
  url : String
deriving DecidableEq

/-- `ContributorStats` aggregate record. -/
structure ContributorStats where
  name : String
  email : String
  totalCommits : Nat
  totalAdditions : Nat
  totalDeletions : Nat
  estimatedHours : ℚ
  aiCommitPercentage : ℚ
  firstCommit : String
  lastCommit : String
  commitDays : List String
deriving DecidableEq

/-- `TimelineStats` per-day aggregate record. -/
structure TimelineStats where
  date : String
  commits : Nat
  additions : Nat
  deletions : Nat
  aiCommits : Nat
  estimatedHours : ℚ
  contributors : List String
deriving DecidableEq

/-! ### `estimateWorkHours`

`new Date(s).getTime()` (millisecond parsing of the ISO timestamp strings) is
the JS runtime's date parser, an external collaborator of the analyzer; it is
modelled by the explicit parameter `getTime`, in hours (the source divides the
millisecond difference by `1000 * 60 * 60` before comparing with the window,
so the parameter directly carries the scaled value). -/

/-- One step of the session loop of `estimateWorkHours`: `acc` is
`(totalHours, lastCommitTime)`. -/
def workHourStep (getTime : String → ℚ) (timeWindow : ℚ)
    (acc : ℚ × Option ℚ) (c : CommitAnalysis) : ℚ × Option ℚ :=
  let commitTime := getTime c.author.date
  let sessionHours : ℚ :=
    match acc.2 with
    | some lastCommitTime =>
      let timeDiff := commitTime - lastCommitTime
      if timeDiff ≤ timeWindow then timeDiff else 1/2
    | none => 1/2
  let commitComplexity : ℚ := min ((c.stats.total : ℚ) / 10) 2
  (acc.1 + sessionHours + commitComplexity, some commitTime)

/-- `estimateWorkHours(commits, timeWindow)` (the source always calls it with
the default window of 4 hours). -/
def estimateWorkHours (getTime : String → ℚ) (timeWindow : ℚ)
    (commits : List CommitAnalysis) : ℚ :=
  if commits.isEmpty then 0
  else
    let sortedCommits := insertionSortBy
      (fun a b => decide (getTime a.author.date ≤ getTime b.author.date)) commits
    let totalHours := (sortedCommits.foldl (workHourStep getTime timeWindow) (0, none)).1
    (jsRound (totalHours * 10) : ℚ) / 10

/-! ### Contributor aggregation (`analyzeCommitHistory`, fold and finalize) -/

/-- The key of the `contributorMap`: the template string
`` `${commit.author.name}-${commit.author.email}` ``. -/
def contributorKey (c : CommitAnalysis) : String :=
  c.author.name ++ "-" ++ c.author.email

/-- The freshly inserted `ContributorStats` for a first-seen key. -/
def initContributor (c : CommitAnalysis) : ContributorStats :=
  { name := c.author.name, email := c.author.email, totalCommits := 0,
    totalAdditions := 0, totalDeletions := 0, estimatedHours := 0,
    aiCommitPercentage := 0, firstCommit := c.author.date,
    lastCommit := c.author.date, commitDays := [] }

/-- The in-place mutation of the looked-up `ContributorStats` for one commit. -/
def updateContributor (getTime : String → ℚ) (c : CommitAnalysis)
    (stats : ContributorStats) : ContributorStats :=
  let stats1 :=
    { stats with totalCommits := stats.totalCommits + 1,
                 totalAdditions := stats.totalAdditions + c.stats.additions,
                 totalDeletions := stats.totalDeletions + c.stats.deletions }
  let commitDate := dateOnly c.author.date
  let stats2 :=
    if stats1.commitDays.contains commitDate then stats1
    else { stats1 with commitDays := stats1.commitDays ++ [commitDate] }
  let stats3 :=
    if getTime c.author.date < getTime stats2.firstCommit then
      { stats2 with firstCommit := c.author.date }
    else stats2
  if getTime stats3.lastCommit < getTime c.author.date then
    { stats3 with lastCommit := c.author.date }
  else stats3

/-- Update the first entry of an association list holding the given key. -/
def updateFirst (key : String) (f : β → β) : List (String × β) → List (String × β)
  | [] => []
  | (k, s) :: rest =>
    if k = key then (k, f s) :: rest else (k, s) :: updateFirst key f rest

/-- Fold one commit into the contributor map (`contributorMap` is modelled as
an insertion-ordered association list, as JS `Map` preserves insertion order). -/
def foldContributorOne (getTime : String → ℚ)
    (m : List (String × ContributorStats)) (c : CommitAnalysis) :
    List (String × ContributorStats) :=
  let key := contributorKey c
  let m1 := if m.any (fun e => e.1 = key) then m else m ++ [(key, initContributor c)]
  updateFirst key (updateContributor getTime c) m1

/-- The first pass over all commits building the contributor map. -/
def contributorFold (getTime : String → ℚ) (commits : List CommitAnalysis) :
    List (String × ContributorStats) :=
  commits.foldl (foldContributorOne getTime) []

/-- The finalize pass: recompute `estimatedHours` over exactly this
contributor's commits and derive `aiCommitPercentage`. -/
def finalizeContributor (getTime : String → ℚ) (commits : List CommitAnalysis)
    (e : String × ContributorStats) : ContributorStats :=
  let contributorCommits := commits.filter (fun c => contributorKey c = e.1)
  let aiCommits := (contributorCommits.filter (fun c => c.isAI)).length
  { e.2 with
    estimatedHours := estimateWorkHours getTime 4 contributorCommits,
    aiCommitPercentage :=
      if e.2.totalCommits > 0 then
        ((aiCommits : ℚ) / (e.2.totalCommits : ℚ)) * 100
      else 0 }

/-- The sorted contributor list (descending `totalCommits`, stable). -/
def computeContributors (getTime : String → ℚ) (commits : List CommitAnalysis) :
    List ContributorStats :=
  insertionSortBy (fun a b => decide (b.totalCommits ≤ a.totalCommits))
    ((contributorFold getTime commits).map (finalizeContributor getTime commits))

/-! ### Timeline aggregation -/

/-- Freshly inserted `TimelineStats` for a first-seen date. -/
def initTimeline (date : String) : TimelineStats :=
  { date := date, commits := 0, additions := 0, deletions := 0, aiCommits := 0,
    estimatedHours := 0, contributors := [] }

/-- In-place mutation of the looked-up `TimelineStats` for one commit. -/
def updateTimeline (c : CommitAnalysis) (t : TimelineStats) : TimelineStats :=
  let t1 := { t with commits := t.commits + 1,
                     additions := t.additions + c.stats.additions,
                     deletions := t.deletions + c.stats.deletions }
  let t2 := if c.isAI then { t1 with aiCommits := t1.aiCommits + 1 } else t1
  if t2.contributors.contains c.author.name then t2
  else { t2 with contributors := t2.contributors ++ [c.author.name] }

/-- Fold one commit into the timeline map. -/
def foldTimelineOne (m : List (String × TimelineStats)) (c : CommitAnalysis) :
    List (String × TimelineStats) :=
  let date := dateOnly c.author.date
  let m1 := if m.any (fun e => e.1 = date) then m else m ++ [(date, initTimeline date)]
  updateFirst date (updateTimeline c) m1

/-- Timeline build: fold, per-day hour estimation, and ascending date sort. -/
def computeTimeline (getTime : String → ℚ) (commits : List CommitAnalysis) :
    List TimelineStats :=
  let folded := commits.foldl foldTimelineOne []
  let finalized := folded.map (fun e =>
    let dayCommits := commits.filter (fun c => dateOnly c.author.date = e.1)
    { e.2 with estimatedHours := estimateWorkHours getTime 4 dayCommits })
  insertionSortBy (fun a b => decide (getTime a.date ≤ getTime b.date)) finalized

/-! ### File filtering (`shouldAnalyzeFile`, `shouldSkipDirectory`, languages) -/

/-- Code-point lowercasing (JS `toLowerCase`; the analyzer only compares
ASCII literals). -/
def strToLower (s : String) : String := ⟨s.data.map Char.toLower⟩

/-- Code-point prefix test (JS `String.prototype.startsWith`). -/
def startsWithSub (s pat : String) : Bool := pat.data.isPrefixOf s.data

/-- Characters after the last `.` of the string, if it has one
(the regex `/\.[^.]*$/` always matches at the last dot). -/
def lastExtAux : List Char → Option (List Char)
  | [] => none
  | c :: cs =>
    match lastExtAux cs with
    | some r => some r
    | none => if c = '.' then some cs else none

/-- `filePath.match(/\.[^.]*$/)?.[0]`: the final extension including the dot. -/
def lastExt (s : String) : Option String :=
  (lastExtAux s.data).map (fun cs => ⟨'.' :: cs⟩)

/-- The `LANGUAGE_MAP` table. -/
def languageMap : List (String × String) :=
  [(".js", "javascript"), (".jsx", "jsx"), (".ts", "typescript"), (".tsx", "tsx"),
   (".py", "python"), (".java", "java"), (".cpp", "cpp"), (".cc", "cpp"),
   (".cxx", "cpp"), (".c++", "cpp"), (".cs", "csharp"), (".go", "go"),
   (".rs", "rust"), (".php", "php"), (".rb", "ruby"), (".swift", "swift"),
   (".kt", "kotlin"), (".scala", "scala"), (".sh", "bash"), (".sql", "sql"),
   (".html", "html"), (".css", "css"), (".scss", "scss"), (".sass", "sass"),
   (".json", "json"), (".yaml", "yaml"), (".yml", "yaml"), (".xml", "xml"),
   (".md", "markdown")]

/-- `getLanguageFromPath`: extension lookup with `'text'` fallback. -/
def getLanguageFromPath (filePath : String) : String :=
  match lastExt (strToLower filePath) with
  | some ext => ((languageMap.find? (fun e => decide (e.1 = ext))).map (fun e => e.2)).getD "text"
  | none => "text"

/-- The `textExtensions` allowlist of `shouldAnalyzeFile`. -/
def textExtensions : List String :=
  [".js", ".jsx", ".ts", ".tsx", ".py", ".java", ".cpp", ".cc", ".cxx", ".c++",
   ".cs", ".go", ".rs", ".php", ".rb", ".swift", ".kt", ".scala", ".vue", ".svelte",
   ".html", ".css", ".scss", ".sass", ".md", ".mdx", ".txt", ".json", ".yaml", ".yml",
   ".xml", ".sh", ".bash", ".zsh", ".fish", ".ps1", ".bat", ".cmd", ".sql", ".r",
   ".dart", ".lua", ".perl", ".pl", ".clj", ".cljs", ".elm", ".ex", ".exs", ".fs",
   ".fsx", ".fsi", ".ml", ".mli", ".hs", ".lhs", ".jl", ".nim", ".cr", ".d", ".pas",
   ".pp", ".dpr", ".dfm", ".inc", ".asm", ".s", ".S", ".dockerfile", ".cmake",
   ".mk", ".makefile", ".gradle", ".sbt", ".pom", ".csproj", ".fsproj", ".vbproj",
   ".vcxproj", ".pbxproj", ".xcconfig", ".plist", ".ini", ".cfg", ".conf", ".config",
   ".toml", ".lock", ".env", ".gitignore", ".gitattributes", ".editorconfig"]

/-- `/\/(main|index)\.(js|ts|jsx|tsx)$/` -/
def mainIndexSuffix (p : String) : Bool :=
  ["/main.js", "/main.ts", "/main.jsx", "/main.tsx",
   "/index.js", "/index.ts", "/index.jsx", "/index.tsx"].any (endsWithSub p)

/-- `/App\.(js|ts|jsx|tsx)$/` -/
def appSuffix (p : String) : Bool :=
  ["App.js", "App.ts", "App.jsx", "App.tsx"].any (endsWithSub p)

/-- `/\.(test|spec)\.(js|ts|jsx|tsx)$/` -/
def testSpecSuffix (p : String) : Bool :=
  [".test.js", ".test.ts", ".test.jsx", ".test.tsx",
   ".spec.js", ".spec.ts", ".spec.jsx", ".spec.tsx"].any (endsWithSub p)

/-- The `excludePatterns` denylist of `shouldAnalyzeFile`, pattern by pattern
in source order (each regex is a plain substring or suffix test). -/
def excludeTest (filePath : String) : Bool :=
  containsSub filePath "/components/ui/" ||
  containsSub filePath "/ui/" ||
  containsSub filePath ".shadcn/" ||
  containsSub filePath "node_modules/" ||
  containsSub filePath "dist/" ||
  containsSub filePath "build/" ||
  containsSub filePath ".next/" ||
  containsSub filePath ".nuxt/" ||
  containsSub filePath "coverage/" ||
  containsSub filePath ".generated." ||
  containsSub filePath ".gen." ||
  endsWithSub filePath ".d.ts" ||
  endsWithSub filePath "types.ts" ||
  endsWithSub filePath "index.d.ts" ||
  containsSub filePath "tailwind.config." ||
  containsSub filePath "vite.config." ||
  containsSub filePath "webpack.config." ||
  containsSub filePath "next.config." ||
  containsSub filePath "nuxt.config." ||
  containsSub filePath "rollup.config." ||
  containsSub filePath "babel.config." ||
  containsSub filePath "jest.config." ||
  containsSub filePath "vitest.config." ||
  containsSub filePath "postcss.config." ||
  containsSub filePath "eslint.config." ||
  containsSub filePath "prettier.config." ||
  endsWithSub filePath "package.json" ||
  endsWithSub filePath "package-lock.json" ||
  endsWithSub filePath "yarn.lock" ||
  endsWithSub filePath "pnpm-lock.yaml" ||
  endsWithSub filePath "bun.lockb" ||
  mainIndexSuffix filePath ||
  appSuffix filePath ||
  testSpecSuffix filePath ||
  containsSub filePath "__tests__/" ||
  containsSub filePath ".test/" ||
  containsSub filePath "/." ||
  containsSub filePath ".git/" ||
  containsSub filePath ".vscode/" ||
  containsSub filePath ".idea/"

/-- `shouldAnalyzeFile`. -/
def shouldAnalyzeFile (filePath : String) : Bool :=
  if containsSub filePath "node_modules/" then false
  else
    match lastExt (strToLower filePath) with
    | none => false
    | some ext =>
      if !(textExtensions.contains ext) then false
      else if excludeTest filePath then false
      else if containsSub filePath "src/" && (mainIndexSuffix filePath || appSuffix filePath) then false
      else true

/-- The exact-name part of `shouldSkipDirectory`. -/
def skipDirNames : List String :=
  ["node_modules", "dist", "build", ".next", ".nuxt", "coverage", ".nyc_output",
   "public", "static", "assets", "components/ui", ".generated", ".gen",
   ".git", ".svn", ".hg", ".vscode", ".idea", ".vs",
   ".husky", ".github", ".gitlab", "tmp", "temp", ".cache", ".temp"]

/-- `shouldSkipDirectory`. -/
def shouldSkipDirectory (dirPath dirName : String) : Bool :=
  skipDirNames.contains dirName ||
  containsSub dirPath "/node_modules/" ||
  containsSub dirPath "/components/ui/" ||
  containsSub dirPath "/." ||
  containsSub dirPath "/dist/" ||
  containsSub dirPath "/build/"

/-! ### The effect environment

All network requests (`fetch`) and the external line classifier
(`analyzeCode` from `aiDetection`) are external collaborators; they are
modelled as oracles in an `AnalyzerEnv`.  A `FetchResult` distinguishes an
HTTP error response (`!response.ok`, carrying the status) from a rejected
promise (network failure / thrown error), because `fetchGitHubContents`
treats the two differently. -/

/-- Outcome of one external request. -/
inductive FetchResult (α : Type) where
  | ok (v : α) : FetchResult α
  | httpError (status : Nat) : FetchResult α
  | netError : FetchResult α

/-- Did the request succeed? -/
def FetchResult.isOk : FetchResult α → Bool
  | .ok _ => true
  | _ => false

/-- `type` field of a GitHub contents entry. -/
inductive GitHubFileType where
  | file : GitHubFileType
  | dir : GitHubFileType
deriving DecidableEq

/-- `GitHubFile` contents entry (`size` is a byte count, a natural number). -/
structure GitHubFile where
  name : String
  path : String
  type : GitHubFileType
  download_url : Option String
  size : Nat
  branch : Option String
deriving DecidableEq

/-- `GitHubBranch` (only the name is used). -/
structure GitHubBranch where
  name : String
deriving DecidableEq

/-- `parent` field of a forked repository's metadata. -/
structure GitHubParent where
  full_name : String
  html_url : String
deriving DecidableEq

/-- `GitHubRepo` metadata. -/
structure GitHubRepo where
  fork : Bool
  parent : Option GitHubParent
deriving DecidableEq

/-- `GitHubCommit` as returned by the commit listing, with the stats attached
by the per-commit detail fetch. -/
structure GitHubCommit where
  sha : String
  message : String
  author : CommitPerson
  committer : CommitPerson
  html_url : String
  stats : Option CommitStatTotals
deriving DecidableEq

/-- Per-line result of the external line classifier. -/
structure LineAnalysis where
  isAI : Bool
  reasons : List String
deriving DecidableEq

/-- `AnalysisResult` of the external `analyzeCode` (from `aiDetection`). -/
structure AnalysisResult where
  totalLines : Nat
  aiLines : Nat
  humanLines : Nat
  aiPercentage : ℚ
  overallConfidence : ℚ
  lineAnalysis : List LineAnalysis
deriving DecidableEq

/-- The oracle environment: one entry per distinct external request the
analyzer issues, keyed by the request parameters.  `getTime` models the JS
`Date` parser (in hours, see `estimateWorkHours`). -/
structure AnalyzerEnv where
  repoInfo : String → String → FetchResult GitHubRepo
  branches : String → String → FetchResult (List GitHubBranch)
  contents : String → String → String → String → FetchResult (List GitHubFile)
  fileContent : String → FetchResult String
  commitsPage : String → String → Nat → FetchResult (List GitHubCommit)
  commitStats : String → String → String → Option CommitStatTotals
  analyzeCode : String → String → FetchResult AnalysisResult
  getTime : String → ℚ

/-! ### Network layer -/

/-- `fetchGitHubContents(owner, repo, path, branch)`: on an error response
(`!response.ok`) for branch `main` it retries branch `master`; any other
failure is thrown (`Except.error`). -/
def fetchGitHubContents (env : AnalyzerEnv) (owner repo path branch : String) :
    Except Unit (List GitHubFile) :=
  match env.contents owner repo path branch with
  | .ok files => .ok (files.map (fun f => { f with branch := some branch }))
  | .httpError _ =>
    if branch = "main" then
      match env.contents owner repo path "master" with
      | .ok files => .ok (files.map (fun f => { f with branch := some "master" }))
      | _ => .error ()
    else .error ()
  | .netError => .error ()

/-- `fetchGitHubBranches`: any failure is caught and degrades to `[]`. -/
def fetchGitHubBranches (env : AnalyzerEnv) (owner repo : String) : List GitHubBranch :=
  match env.branches owner repo with
  | .ok branches => branches
  | _ => []

/-- `fetchFileContent`: failures are thrown. -/
def fetchFileContent (env : AnalyzerEnv) (downloadUrl : String) : Except Unit String :=
  match env.fileContent downloadUrl with
  | .ok text => .ok text
  | _ => .error ()

/-- `getAllFiles(owner, repo, path, maxDepth, branch)` (embedded as `getAllFilesFrom`, the
source name collides with an existing declaration): recursive directory
walk; a failing subdirectory fetch is caught and that subtree skipped, while
a failure at the current level is thrown. -/
def getAllFilesFrom (env : AnalyzerEnv) (owner repo : String) :
    Nat → String → String → Except Unit (List GitHubFile)
  | 0, _, _ => .ok []
  | maxDepth + 1, path, branch =>
    match fetchGitHubContents env owner repo path branch with
    | .error e => .error e
    | .ok contents =>
      .ok (contents.foldr (fun item acc =>
        (if item.type = GitHubFileType.file then [item]
         else if item.type = GitHubFileType.dir ∧
                 shouldSkipDirectory item.path item.name = false then
           match getAllFilesFrom env owner repo maxDepth item.path branch with
           | .ok subFiles => subFiles
           | .error _ => []
         else []) ++ acc) [])

/-- Is this branch `main` or `master`? -/
def isMainOrMaster (b : GitHubBranch) : Bool := b.name = "main" || b.name = "master"

/-- The branch-sort comparator (`main`/`master` first, then by name;
`localeCompare` is modelled as code-point order). -/
def branchLe (a b : GitHubBranch) : Bool :=
  isMainOrMaster a || (!isMainOrMaster b && decide (a.name ≤ b.name))

/-- The `seenFiles` key: the template string `` `${file.path}-${file.size}` ``. -/
def fileKey (f : GitHubFile) : String := f.path ++ "-" ++ natDecimal f.size

/-- One step of the deduplication fold: `acc` is `(allFiles, seenFiles)`. -/
def dedupStep (acc : List GitHubFile × List String) (file : GitHubFile) :
    List GitHubFile × List String :=
  if acc.2.contains (fileKey file) then acc
  else (acc.1 ++ [file], acc.2 ++ [fileKey file])

/-- Harvest one branch into the accumulator; a failed branch is skipped. -/
def harvestBranchFold (env : AnalyzerEnv) (owner repo : String)
    (acc : List GitHubFile × List String) (branch : GitHubBranch) :
    List GitHubFile × List String :=
  match getAllFilesFrom env owner repo 4 "" branch.name with
  | .ok branchFiles => branchFiles.foldl dedupStep acc
  | .error _ => acc

/-- `getAllFilesFromAllBranches`: harvest every branch (main/master first),
deduplicating by `fileKey`; returns the files and the branch count. -/
def getAllFilesFromAllBranches (env : AnalyzerEnv) (owner repo : String) :
    List GitHubFile × Nat :=
  let branches := fetchGitHubBranches env owner repo
  let sortedBranches := insertionSortBy branchLe branches
  let acc := sortedBranches.foldl (harvestBranchFold env owner repo) ([], [])
  (acc.1, branches.length)

/-- Does this file's fetched content contain `lovable` (case-insensitively)?
Fetch failures are caught and count as `false`. -/
def fileHasLovable (env : AnalyzerEnv) (f : GitHubFile) : Bool :=
  match f.download_url with
  | some u =>
    match env.fileContent u with
    | .ok content => containsSub (strToLower content) "lovable"
    | _ => false
  | none => false

/-- `checkForLovableKeyword`: root `index.html`/`package.json`, then all
files under `src/`. -/
def checkForLovableKeyword (env : AnalyzerEnv) (allFiles : List GitHubFile) : Bool :=
  (["index.html", "package.json"].any fun fileName =>
    match allFiles.find? (fun f => decide (f.name = fileName) && decide (f.path = fileName)) with
    | some f => fileHasLovable env f
    | none => false) ||
  (allFiles.filter (fun f => startsWithSub f.path "src/")).any (fileHasLovable env)

/-! ### Commit history -/

/-- The paginated commit listing (`page` starts at 1, `while (page <= 10)` is
a fuel of 10 pages): a failing page listing is thrown, a failing per-commit
stats fetch degrades to zero stats, an empty page or a short page ends the
loop. -/
def fetchCommitsPages (env : AnalyzerEnv) (owner repo : String) :
    Nat → Nat → Except Unit (List GitHubCommit)
  | 0, _ => .ok []
  | fuel + 1, page =>
    match env.commitsPage owner repo page with
    | .ok data =>
      if data.isEmpty then .ok []
      else
        let commitsWithStats := data.map (fun c =>
          { c with stats := some ((env.commitStats owner repo c.sha).getD ⟨0, 0, 0⟩) })
        if data.length < 100 then .ok commitsWithStats
        else
          match fetchCommitsPages env owner repo fuel (page + 1) with
          | .ok rest => .ok (commitsWithStats ++ rest)
          | .error e => .error e
    | _ => .error ()

/-- `fetchGitHubCommits`. -/
def fetchGitHubCommits (env : AnalyzerEnv) (owner repo : String) :
    Except Unit (List GitHubCommit) :=
  fetchCommitsPages env owner repo 10 1

/-- Assemble one `CommitAnalysis` from a fetched commit
(`githubCommit.stats || {additions: 0, deletions: 0, total: 0}`). -/
def classifyCommit (g : GitHubCommit) : CommitAnalysis :=
  let analysis := analyzeCommitMessage g.message
  { sha := g.sha, message := g.message, author := g.author,
    committer := g.committer, stats := g.stats.getD ⟨0, 0, 0⟩,
    isAI := analysis.isAI, confidence := analysis.confidence,
    reasons := analysis.reasons, url := g.html_url }

/-- The `commitAnalysis` section of the report. -/
structure CommitHistoryResult where
  totalCommits : Nat
  commits : List CommitAnalysis
  contributors : List ContributorStats
  timeline : List TimelineStats
  totalEstimatedHours : ℚ
  aiCommitPercentage : ℚ
  projectStartDate : String
  projectEndDate : String
deriving DecidableEq

/-- `analyzeCommitHistory`: classify, aggregate and summarize; any failure of
the commit fetch is propagated (and caught by the orchestrator). -/
def analyzeCommitHistory (env : AnalyzerEnv) (owner repo : String) :
    Except Unit CommitHistoryResult :=
  match fetchGitHubCommits env owner repo with
  | .error e => .error e
  | .ok githubCommits =>
    if githubCommits.isEmpty then
      .ok { totalCommits := 0, commits := [], contributors := [], timeline := [],
            totalEstimatedHours := 0, aiCommitPercentage := 0,
            projectStartDate := "", projectEndDate := "" }
    else
      let commits := githubCommits.map classifyCommit
      let contributors := computeContributors env.getTime commits
      let timeline := computeTimeline env.getTime commits
      let totalEstimatedHours := (contributors.map (fun c => c.estimatedHours)).sum
      let aiCommits := (commits.filter (fun c => c.isAI)).length
      let aiCommitPercentage : ℚ :=
        if commits.length > 0 then ((aiCommits : ℚ) / (commits.length : ℚ)) * 100
        else 0
      let sortedDates :=
        insertionSortBy (fun a b => decide (a ≤ b)) (commits.map (fun c => c.author.date))
      .ok { totalCommits := commits.length,
            commits := insertionSortBy
              (fun a b => decide (env.getTime b.author.date ≤ env.getTime a.author.date))
              commits,
            contributors := contributors,
            timeline := timeline,
            totalEstimatedHours := totalEstimatedHours,
            aiCommitPercentage := aiCommitPercentage,
            projectStartDate := sortedDates.headD "",
            projectEndDate := sortedDates.getLastD "" }

/-! ### URL parsing and fork resolution -/

/-- Match `([^\/]+)\/([^\/]+)` at this position (greedy captures followed by
the forced `/`; greediness cannot backtrack past a non-`/` run, so the
maximal runs are the only candidates). -/
def matchOwnerRepoAt (cs : List Char) : Option (String × String) :=
  let owner := cs.takeWhile (fun c => c ≠ '/')
  if owner.isEmpty then none
  else
    match cs.drop owner.length with
    | c :: rest =>
      if c = '/' then
        let repo := rest.takeWhile (fun c => c ≠ '/')
        if repo.isEmpty then none else some (⟨owner⟩, ⟨repo⟩)
      else none
    | [] => none

/-- `parent.full_name.match(/([^\/]+)\/([^\/]+)/)`: leftmost match. -/
def parseOwnerRepo (s : String) : Option (String × String) :=
  s.data.tails.findSome? matchOwnerRepoAt

/-- `repositoryUrl.match(/github\.com\/([^\/]+)\/([^\/]+)/)`: leftmost
occurrence of the literal `github.com/` followed by owner and repo. -/
def parseGitHubUrl (s : String) : Option (String × String) :=
  s.data.tails.findSome? (fun t =>
    if ("github.com/").data.isPrefixOf t then matchOwnerRepoAt (t.drop 11)
    else none)

/-- The working identity after fork resolution. -/
structure ResolvedIdentity where
  owner : String
  repo : String
  isForked : Bool
  originalRepositoryUrl : Option String
deriving DecidableEq

/-- Fork resolution: on metadata failure proceed with the supplied identity;
for a fork with a parent, switch to the parent's owner/repo. -/
def resolveIdentity (env : AnalyzerEnv) (owner repo : String) : ResolvedIdentity :=
  match env.repoInfo owner repo with
  | .ok repoInfo =>
    if repoInfo.fork then
      match repoInfo.parent with
      | some parent =>
        (match parseOwnerRepo parent.full_name with
         | some (o, r) => ⟨o, r, true, some parent.html_url⟩
         | none => ⟨owner, repo, true, some parent.html_url⟩)
      | none => ⟨owner, repo, false, none⟩
    else ⟨owner, repo, false, none⟩
  | _ => ⟨owner, repo, false, none⟩

/-! ### Per-file analysis and report assembly -/

/-- One analyzed file of the report. -/
structure FileAnalysis where
  path : String
  language : String
  analysis : AnalysisResult
  size : Nat
deriving DecidableEq

/-- `overallStats` of the report. -/
structure OverallStats where
  totalLines : Nat
  aiLines : Nat
  humanLines : Nat
  aiPercentage : ℚ
  humanPercentage : ℚ
  overallConfidence : ℚ
deriving DecidableEq

/-- The top-level `RepositoryAnalysis` report. -/
structure RepositoryAnalysis where
  repositoryUrl : String
  originalRepositoryUrl : Option String
  isForked : Bool
  totalFiles : Nat
  analyzedFiles : Nat
  totalBranches : Nat
  files : List FileAnalysis
  overallStats : OverallStats
  hasLovableLabel : Bool
  commitAnalysis : Option CommitHistoryResult
deriving DecidableEq

/-- Accumulator of the per-file analysis loop. -/
structure FileLoopAcc where
  fileAnalyses : List FileAnalysis
  totalLines : Nat
  totalAiLines : Nat
  totalHumanLines : Nat
  totalConfidence : ℚ
  analyzedCount : Nat
deriving DecidableEq

/-- One iteration of the per-file loop: fetch, skip empty-after-trim content,
classify; every per-file failure is caught and the file skipped. -/
def analyzeFileStep (env : AnalyzerEnv) (acc : FileLoopAcc) (f : GitHubFile) :
    FileLoopAcc :=
  match f.download_url with
  | none => acc
  | some u =>
    match env.fileContent u with
    | .ok content =>
      let language := getLanguageFromPath f.path
      if content.data.all isJsSpace then acc
      else
        match env.analyzeCode content language with
        | .ok analysis =>
          { fileAnalyses := acc.fileAnalyses ++
              [{ path := f.path, language := language, analysis := analysis,
                 size := f.size }],
            totalLines := acc.totalLines + analysis.totalLines,
            totalAiLines := acc.totalAiLines + analysis.aiLines,
            totalHumanLines := acc.totalHumanLines + analysis.humanLines,
            totalConfidence := acc.totalConfidence + analysis.overallConfidence,
            analyzedCount := acc.analyzedCount + 1 }
        | _ => acc
    | _ => acc

/-- Does some line of the file carry invisible-character evidence? -/
def hasInvisibleEvidence (fa : FileAnalysis) : Bool :=
  fa.analysis.lineAnalysis.any (fun line =>
    line.isAI && line.reasons.any (fun r => containsSub r "invisible Unicode"))

/-- Does some line of the file carry emoji evidence? -/
def hasEmojiEvidence (fa : FileAnalysis) : Bool :=
  fa.analysis.lineAnalysis.any (fun line =>
    line.isAI && line.reasons.any (fun r => containsSub r "emojis"))

/-- The three-tier file priority comparator (invisible evidence, then emoji
evidence, then descending AI percentage). -/
def filePriorityLe (a b : FileAnalysis) : Bool :=
  if hasInvisibleEvidence a && !hasInvisibleEvidence b then true
  else if !hasInvisibleEvidence a && hasInvisibleEvidence b then false
  else if hasEmojiEvidence a && !hasEmojiEvidence b then true
  else if !hasEmojiEvidence a && hasEmojiEvidence b then false
  else decide (b.analysis.aiPercentage ≤ a.analysis.aiPercentage)

/-- The analyzability filter applied to harvested files (`file.size` is
truthy, i.e. nonzero; under 1 MiB; with a download URL). -/
def analyzeableFilter (f : GitHubFile) : Bool :=
  shouldAnalyzeFile f.path && decide (f.size ≠ 0) &&
  decide (f.size < 1024 * 1024) && f.download_url.isSome

/-- The two fatal outcomes of `analyzeGitHubRepository`. -/
inductive AnalyzeError where
  | invalidUrl : AnalyzeError
  | noAnalyzableFiles : AnalyzeError
deriving DecidableEq

/-- `analyzeGitHubRepository`: the orchestrator.  Throws `invalidUrl` when the
URL does not parse and `noAnalyzableFiles` when no harvested file passes
`analyzeableFilter`; every other failure is recovered internally. -/
def analyzeGitHubRepository (env : AnalyzerEnv) (repositoryUrl : String)
    (includeCommitHistory : Bool) : Except AnalyzeError RepositoryAnalysis :=
  match parseGitHubUrl repositoryUrl with
  | none => .error AnalyzeError.invalidUrl
  | some (owner0, repo0) =>
    let r := resolveIdentity env owner0 repo0
    let harvest := getAllFilesFromAllBranches env r.owner r.repo
    let allFiles := harvest.1
    let hasLovableLabel := checkForLovableKeyword env allFiles
    let analyzeableFiles := allFiles.filter analyzeableFilter
    if analyzeableFiles.isEmpty then .error AnalyzeError.noAnalyzableFiles
    else
      let acc := analyzeableFiles.foldl (analyzeFileStep env) ⟨[], 0, 0, 0, 0, 0⟩
      let overallStats : OverallStats :=
        { totalLines := acc.totalLines,
          aiLines := acc.totalAiLines,
          humanLines := acc.totalHumanLines,
          aiPercentage :=
            if acc.totalLines > 0 then
              ((acc.totalAiLines : ℚ) / (acc.totalLines : ℚ)) * 100
            else 0,
          humanPercentage :=
            if acc.totalLines > 0 then
              ((acc.totalHumanLines : ℚ) / (acc.totalLines : ℚ)) * 100
            else 0,
          overallConfidence :=
            if acc.analyzedCount > 0 then acc.totalConfidence / (acc.analyzedCount : ℚ)
            else 0 }
      let sortedFiles := insertionSortBy filePriorityLe acc.fileAnalyses
      let commitAnalysis :=
        if includeCommitHistory then (analyzeCommitHistory env r.owner r.repo).toOption
        else none
      .ok { repositoryUrl :=
              if r.isForked then r.originalRepositoryUrl.getD repositoryUrl
              else repositoryUrl,
            originalRepositoryUrl :=
              if r.isForked then r.originalRepositoryUrl else none,
            isForked := r.isForked,
            totalFiles := allFiles.length,
            analyzedFiles := acc.fileAnalyses.length,
            totalBranches := harvest.2,
            files := sortedFiles,
            overallStats := overallStats,
            hasLovableLabel := hasLovableLabel,
            commitAnalysis := commitAnalysis }

/-! ### Concrete constants used by witnesses and counterexamples -/

/-- Total of `totalCommits` over a contributor map. -/
def sumTotalCommits (m : List (String × ContributorStats)) : Nat :=
  (m.map (fun e => e.2.totalCommits)).sum

/-- A concrete zero-stats commit. -/
def c9commit : CommitAnalysis :=
  { sha := "s", message := "m",
    author := { name := "a", email := "e", date := "2024-01-01T00:00:00Z" },
    committer := { name := "a", email := "e", date := "2024-01-01T00:00:00Z" },
    stats := { additions := 0, deletions := 0, total := 0 },
    isAI := false, confidence := 0, reasons := [], url := "u" }

/-- Value of a most-significant-first decimal digit list (left inverse used to
prove `natDecimal` injective). -/
def decVal (l : List Char) : Nat := l.foldl (fun a c => 10 * a + (c.toNat - 48)) 0

/-- A commit whose author name/email pair is `("a-b", "c")`. -/
def c4commitA : CommitAnalysis :=
  { sha := "s1", message := "m1",
    author := { name := "a-b", email := "c", date := "2024-01-01T00:00:00Z" },
    committer := { name := "a-b", email := "c", date := "2024-01-01T00:00:00Z" },
    stats := { additions := 0, deletions := 0, total := 0 },
    isAI := false, confidence := 0, reasons := [], url := "u1" }

/-- A commit whose author name/email pair is `("a", "b-c")`. -/
def c4commitB : CommitAnalysis :=
  { sha := "s2", message := "m2",
    author := { name := "a", email := "b-c", date := "2024-01-01T01:00:00Z" },
    committer := { name := "a", email := "b-c", date := "2024-01-01T01:00:00Z" },
    stats := { additions := 0, deletions := 0, total := 0 },
    isAI := false, confidence := 0, reasons := [], url := "u2" }

/-- A concrete commit for the C6 witness. -/
def c6commit : CommitAnalysis :=
  { sha := "s6", message := "hello",
    author := { name := "n", email := "e", date := "2024-02-02T00:00:00Z" },
    committer := { name := "n", email := "e", date := "2024-02-02T00:00:00Z" },
    stats := { additions := 1, deletions := 2, total := 3 },
    isAI := false, confidence := 0, reasons := [], url := "u6" }

/-- First commit of the C10 scenario, as fetched. -/
def c10rawA : GitHubCommit :=
  { sha := "sa", message := "feat: add login",
    author := { name := "dev", email := "dev@example.com", date := "2024-01-01T10:00:00Z" },
    committer := { name := "dev", email := "dev@example.com", date := "2024-01-01T10:00:00Z" },
    html_url := "ua", stats := some { additions := 20, deletions := 0, total := 20 } }

/-- Second commit of the C10 scenario, as fetched. -/
def c10rawB : GitHubCommit :=
  { sha := "sb", message := "feat: add login",
    author := { name := "dev", email := "dev@example.com", date := "2024-01-01T11:00:00Z" },
    committer := { name := "dev", email := "dev@example.com", date := "2024-01-01T11:00:00Z" },
    html_url := "ub", stats := some { additions := 5, deletions := 0, total := 5 } }

/-- First classified commit of the C10 scenario. -/
def c10commitA : CommitAnalysis := classifyCommit c10rawA

/-- Second classified commit of the C10 scenario. -/
def c10commitB : CommitAnalysis := classifyCommit c10rawB

/-- A base environment in which every external request fails. -/
def envStub : AnalyzerEnv :=
  { repoInfo := fun _ _ => .netError,
    branches := fun _ _ => .netError,
    contents := fun _ _ _ _ => .netError,
    fileContent := fun _ => .netError,
    commitsPage := fun _ _ _ => .netError,
    commitStats := fun _ _ _ => none,
    analyzeCode := fun _ _ => .netError,
    getTime := fun _ => 0 }

/-- A concrete file living on branch `master`. -/
def c7file : GitHubFile :=
  { name := "f.py", path := "f.py", type := .file, download_url := some "u",
    size := 10, branch := none }

/-- Environment where every directory listing fails with a transient HTTP 500
except on branch `master`, which succeeds. -/
def envC7 : AnalyzerEnv :=
  { envStub with contents := fun _ _ _ branch =>
      if branch = "master" then .ok [c7file] else .httpError 500 }

/-- A root `README.md` of size 120. -/
def readmeFile : GitHubFile :=
  { name := "README.md", path := "README.md", type := .file,
    download_url := some "u", size := 120, branch := none }

/-- Environment with branches `main` and `dev`, both carrying the same root
`README.md` of size 120. -/
def envC5 : AnalyzerEnv :=
  { envStub with
    branches := fun _ _ => .ok [{ name := "main" }, { name := "dev" }],
    contents := fun _ _ path _ => if path = "" then .ok [readmeFile] else .netError }

/-- A root `app.py` that passes the analyzability filter. -/
def c3file : GitHubFile :=
  { name := "app.py", path := "app.py", type := .file, download_url := some "u",
    size := 10, branch := none }

/-- A fixed result of the external line classifier. -/
def c3analysis : AnalysisResult :=
  { totalLines := 1, aiLines := 0, humanLines := 1,
    aiPercentage := 0, overallConfidence := 0, lineAnalysis := [] }

/-- Environment with one branch and one analyzable file; metadata and commit
fetches fail (and are recovered). -/
def envC3 : AnalyzerEnv :=
  { envStub with
    branches := fun _ _ => .ok [{ name := "main" }],
    contents := fun _ _ path _ => if path = "" then .ok [c3file] else .netError,
    fileContent := fun _ => .ok "print(1)",
    analyzeCode := fun _ _ => .ok c3analysis }

/-! ### Helper lemmas -/

/-- `a` is a lower bound of a max-fold starting at `a`. -/
theorem foldl_max_init_le (l : List ℚ) : ∀ a : ℚ, a ≤ l.foldl max a := by
  induction l with
  | nil => intro a; exact le_refl a
  | cons c cs ih => intro a; exact le_trans (le_max_left a c) (ih (max a c))

/-- A max-fold stays below any bound dominating the start and every element. -/
theorem foldl_max_le_bound (b : ℚ) :
    ∀ l : List ℚ, (∀ x ∈ l, x ≤ b) → ∀ a : ℚ, a ≤ b → l.foldl max a ≤ b := by
  intro l
  induction l with
  | nil => intro _ a ha; exact ha
  | cons c cs ih =>
    intro hmem a ha
    exact ih (fun x hx => hmem x (List.mem_cons_of_mem c hx))
      (max a c) (max_le ha (hmem c (List.mem_cons_self c cs)))

/-- There are three grammar indicators, so `grammarScore ≤ 3`. -/
theorem grammarScore_le_three (message : String) : grammarScore message ≤ 3 := by
  have h := List.length_filter_le (fun p => p message) perfectGrammarIndicators
  simpa [grammarScore, perfectGrammarIndicators] using h

/-- `updateContributor` increments `totalCommits` by exactly one. -/
theorem updateContributor_totalCommits (getTime : String → ℚ) (c : CommitAnalysis)
    (s : ContributorStats) :
    (updateContributor getTime c s).totalCommits = s.totalCommits + 1 := by
  simp only [updateContributor]
  split_ifs <;> rfl

/-- `finalizeContributor` does not change `totalCommits`. -/
theorem finalizeContributor_totalCommits (getTime : String → ℚ)
    (commits : List CommitAnalysis) (e : String × ContributorStats) :
    (finalizeContributor getTime commits e).totalCommits = e.2.totalCommits := rfl

/-- Updating an existing key adds exactly one to the total. -/
theorem updateFirst_sumTotal (getTime : String → ℚ) (c : CommitAnalysis) (key : String) :
    ∀ m : List (String × ContributorStats),
      m.any (fun e => decide (e.1 = key)) = true →
      sumTotalCommits (updateFirst key (updateContributor getTime c) m)
        = sumTotalCommits m + 1 := by
  intro m
  induction m with
  | nil => intro h; simp at h
  | cons hd tl ih =>
    obtain ⟨k, s⟩ := hd
    intro h
    by_cases hk : k = key
    · simp only [updateFirst, if_pos hk, sumTotalCommits, List.map_cons,
        List.sum_cons, updateContributor_totalCommits]
      omega
    · have htl : tl.any (fun e => decide (e.1 = key)) = true := by
        simpa [List.any_cons, hk] using h
      simp only [updateFirst, if_neg hk, sumTotalCommits, List.map_cons, List.sum_cons]
      have h2 := ih htl
      simp only [sumTotalCommits] at h2
      omega

/-- Folding one commit into the map adds exactly one to the total. -/
theorem foldContributorOne_sumTotal (getTime : String → ℚ)
    (m : List (String × ContributorStats)) (c : CommitAnalysis) :
    sumTotalCommits (foldContributorOne getTime m c) = sumTotalCommits m + 1 := by
  simp only [foldContributorOne]
  by_cases hmem : (m.any fun e => decide (e.1 = contributorKey c)) = true
  · rw [if_pos hmem]
    exact updateFirst_sumTotal getTime c (contributorKey c) m hmem
  · have happ : ((m ++ [(contributorKey c, initContributor c)]).any
        fun e => decide (e.1 = contributorKey c)) = true := by
      simp
    rw [if_neg hmem, updateFirst_sumTotal getTime c (contributorKey c) _ happ]
    simp [sumTotalCommits, initContributor]

/-- The fold pass counts every commit exactly once. -/
theorem contributorFold_sumTotal (getTime : String → ℚ) :
    ∀ (commits : List CommitAnalysis) (m : List (String × ContributorStats)),
      sumTotalCommits (commits.foldl (foldContributorOne getTime) m)
        = sumTotalCommits m + commits.length := by
  intro commits
  induction commits with
  | nil => intro m; simp
  | cons c cs ih =>
    intro m
    simp only [List.foldl_cons, List.length_cons]
    rw [ih, foldContributorOne_sumTotal]
    omega

/-- Stable insertion is a permutation of consing. -/
theorem insertOrd_perm (le : α → α → Bool) (a : α) :
    ∀ l : List α, List.Perm (insertOrd le a l) (a :: l) := by
  intro l
  induction l with
  | nil => simp [insertOrd]
  | cons b bs ih =>
    simp only [insertOrd]
    split_ifs
    · exact List.Perm.refl _
    · exact List.Perm.trans (List.Perm.cons b ih) (List.Perm.swap a b bs)

/-- The stable sort is a permutation of its input. -/
theorem insertionSortBy_perm (le : α → α → Bool) :
    ∀ l : List α, List.Perm (insertionSortBy le l) l := by
  intro l
  induction l with
  | nil => exact List.Perm.refl _
  | cons a as ih =>
    exact List.Perm.trans (insertOrd_perm le a (insertionSortBy le as))
      (List.Perm.cons a ih)

/-! ### C1 -/

/-- C1: any commit message containing a zero-width / invisible Unicode control
character makes `analyzeCommitMessage` short-circuit with confidence exactly
1.0, `isAI = true`, and a single-reason list, regardless of the rest of the
message. -/
theorem c1_invisible_short_circuit (message : String)
    (h : hasInvisibleChars message = true) :
    analyzeCommitMessage message =
      { isAI := true, confidence := 1,
        reasons := ["Contains invisible Unicode characters"] } := by
  simp [analyzeCommitMessage, h]

/-- Witness for C1 at the concrete message `"update readme​"`. -/
theorem c1_invisible_short_circuit_witness :
    hasInvisibleChars "update readme​" = true ∧
    analyzeCommitMessage "update readme​" =
      { isAI := true, confidence := 1,
        reasons := ["Contains invisible Unicode characters"] } :=
  ⟨by decide, c1_invisible_short_circuit "update readme​" (by decide)⟩

/-! ### C2 -/

set_option maxHeartbeats 1000000 in
/-- C2: every classification confidence lies in `[0, 1]`, equals the maximum
of the triggered signal candidates (0 when none triggered), and `isAI` holds
exactly when the confidence exceeds 0.5. -/
theorem c2_confidence_invariant (message : String) :
    0 ≤ (analyzeCommitMessage message).confidence ∧
    (analyzeCommitMessage message).confidence ≤ 1 ∧
    ((analyzeCommitMessage message).isAI = true ↔
      (analyzeCommitMessage message).confidence > 1/2) ∧
    (analyzeCommitMessage message).confidence
      = (signalCandidates message).foldl max 0 := by
  have hconf : (analyzeCommitMessage message).confidence
      = (signalCandidates message).foldl max 0 := by
    simp only [analyzeCommitMessage, signalCandidates]
    split_ifs <;> rfl
  have hcand : ∀ x ∈ signalCandidates message, x ≤ 1 := by
    intro x hx
    have hg : ((grammarScore message : ℚ)) ≤ 3 := by
      exact_mod_cast grammarScore_le_three message
    have hg0 : (0:ℚ) ≤ (grammarScore message : ℚ) := Nat.cast_nonneg _
    have hmin : min ((8:ℚ)/10)
        (3/10 + ((matchedAiPatterns message).length : ℚ) * (15/100)) ≤ 1 :=
      le_trans (min_le_left _ _) (by norm_num)
    have hgr : (1:ℚ)/2 + (grammarScore message : ℚ) * (1/10) ≤ 1 := by nlinarith
    have hone : ∀ y : ℚ, (y = 1 ∨ y = 9/10 ∨
        y = min ((8:ℚ)/10) (3/10 + ((matchedAiPatterns message).length : ℚ) * (15/100)) ∨
        y = 6/10 ∨ y = 1/2 + (grammarScore message : ℚ) * (1/10)) → y ≤ 1 := by
      rintro y (rfl | rfl | rfl | rfl | rfl)
      · norm_num
      · norm_num
      · exact hmin
      · norm_num
      · exact hgr
    simp only [signalCandidates] at hx
    split_ifs at hx <;>
      simp only [List.append_nil, List.nil_append, List.cons_append, List.mem_cons,
        List.mem_singleton, List.not_mem_nil, or_false] at hx <;>
      exact hone x (by tauto)
  have h0 : 0 ≤ (analyzeCommitMessage message).confidence := by
    rw [hconf]; exact foldl_max_init_le _ 0
  have h1 : (analyzeCommitMessage message).confidence ≤ 1 := by
    rw [hconf]
    exact foldl_max_le_bound 1 _ hcand 0 (by norm_num)
  have hai : (analyzeCommitMessage message).isAI = true ↔
      (analyzeCommitMessage message).confidence > 1/2 := by
    by_cases h : hasInvisibleChars message
    · simp [analyzeCommitMessage, h]; norm_num
    · simp only [analyzeCommitMessage, h, Bool.false_eq_true, if_false,
        decide_eq_true_eq]
  exact ⟨h0, h1, hai, hconf⟩

/-! ### C9 -/

/-- C9: the work-hour estimator returns 0 on the empty commit list, and
exactly 0.5 on a single commit with zero total stats (session base time with
zero size-complexity term), for every date parser. -/
theorem c9_work_hour_base_cases (getTime : String → ℚ) (c : CommitAnalysis)
    (h : c.stats.total = 0) :
    estimateWorkHours getTime 4 [] = 0 ∧
    estimateWorkHours getTime 4 [c] = 1/2 := by
  constructor
  · simp [estimateWorkHours]
  · simp only [estimateWorkHours, List.isEmpty_cons, insertionSortBy, insertOrd,
      List.foldl_cons, List.foldl_nil, workHourStep, h, jsRound]
    norm_num

/-- Witness for C9. -/
theorem c9_work_hour_base_cases_witness :
    c9commit.stats.total = 0 ∧
    (estimateWorkHours (fun _ => 0) 4 [] = 0 ∧
     estimateWorkHours (fun _ => 0) 4 [c9commit] = 1/2) :=
  ⟨rfl, c9_work_hour_base_cases (fun _ => 0) c9commit rfl⟩

/-! ### C6 -/

/-- C6: for every fold of a non-empty classified commit list, the sum of
`totalCommits` over all produced contributor aggregates equals the number of
classified commits. -/
theorem c6_total_commits_sum (getTime : String → ℚ)
    (commits : List CommitAnalysis) (h : commits ≠ []) :
    ((computeContributors getTime commits).map (fun s => s.totalCommits)).sum
      = commits.length := by
  have hperm := insertionSortBy_perm
    (fun a b => decide (b.totalCommits ≤ a.totalCommits))
    ((contributorFold getTime commits).map (finalizeContributor getTime commits))
  calc ((computeContributors getTime commits).map (fun s => s.totalCommits)).sum
      = (((contributorFold getTime commits).map
          (finalizeContributor getTime commits)).map (fun s => s.totalCommits)).sum :=
        (hperm.map (fun s => s.totalCommits)).sum_eq
    _ = ((contributorFold getTime commits).map (fun e => e.2.totalCommits)).sum := by
        rw [List.map_map]
        rfl
    _ = commits.length := by
        have h2 := contributorFold_sumTotal getTime commits []
        simpa [sumTotalCommits, contributorFold] using h2

/-- Witness for C6 on a concrete one-commit list. -/
theorem c6_total_commits_sum_witness :
    ([c6commit] : List CommitAnalysis) ≠ [] ∧
    ((computeContributors (fun _ => 0) [c6commit]).map (fun s => s.totalCommits)).sum
      = [c6commit].length :=
  ⟨List.cons_ne_nil _ _,
   c6_total_commits_sum (fun _ => 0) [c6commit] (List.cons_ne_nil _ _)⟩

/-! ### C4 -/

/-- The contributor fold of a two-commit list produces the joined-string keys,
merging exactly when the joined keys coincide. -/
theorem contributorFold_pair_keys (getTime : String → ℚ) (c1 c2 : CommitAnalysis) :
    (contributorFold getTime [c1, c2]).map Prod.fst =
      if contributorKey c1 = contributorKey c2 then [contributorKey c1]
      else [contributorKey c1, contributorKey c2] := by
  simp only [contributorFold, List.foldl_cons, List.foldl_nil]
  have h1 : foldContributorOne getTime [] c1 =
      [(contributorKey c1, updateContributor getTime c1 (initContributor c1))] := by
    simp [foldContributorOne, updateFirst]
  rw [h1]
  by_cases h : contributorKey c1 = contributorKey c2
  · rw [if_pos h]
    simp [foldContributorOne, updateFirst, h]
  · rw [if_neg h]
    simp [foldContributorOne, updateFirst, h, Ne.symm h]

/-- C4 counterexample: the fold is keyed by the joined string
`name ++ "-" ++ email`, so the distinct pairs `("a-b", "c")` and
`("a", "b-c")` collide into a single aggregate, refuting the claim that
distinct `(name, email)` pairs always produce distinct aggregates. -/
theorem c4_pair_keying_counterexample :
    (c4commitA.author.name, c4commitA.author.email) ≠
      (c4commitB.author.name, c4commitB.author.email) ∧
    (contributorFold (fun _ => 0) [c4commitA, c4commitB]).length = 1 := by
  constructor
  · decide
  · have h := contributorFold_pair_keys (fun _ => 0) c4commitA c4commitB
    have hk : contributorKey c4commitA = contributorKey c4commitB := by decide
    rw [if_pos hk] at h
    have := congrArg List.length h
    simpa using this

/-- C4 amended: contributor aggregates are keyed by the joined string
`author.name ++ "-" ++ author.email`; two commits are folded into the same
aggregate exactly when these joined keys are equal (pairs whose joins
coincide, e.g. via embedded `-`, collide). -/
theorem c4_joined_key_aggregation (getTime : String → ℚ) (c1 c2 : CommitAnalysis) :
    (contributorFold getTime [c1, c2]).map Prod.fst =
      (if contributorKey c1 = contributorKey c2 then [contributorKey c1]
       else [contributorKey c1, contributorKey c2]) ∧
    (contributorFold getTime [c1, c2]).length =
      (if contributorKey c1 = contributorKey c2 then 1 else 2) := by
  refine ⟨contributorFold_pair_keys getTime c1 c2, ?_⟩
  have h := congrArg List.length (contributorFold_pair_keys getTime c1 c2)
  simp only [List.length_map] at h
  rw [h]
  by_cases hk : contributorKey c1 = contributorKey c2
  · rw [if_pos hk, if_pos hk]; rfl
  · rw [if_neg hk, if_neg hk]; rfl

/-! ### C7 -/

/-- C7 counterexample: a transient (HTTP 500, not 404) error response on
branch `main` still triggers the fallback to `master`, refuting the claim
that the fallback happens only on a not-found outcome. -/
theorem c7_not_found_only_counterexample :
    ¬ (∀ (env : AnalyzerEnv) (owner repo path : String) (status : Nat),
        env.contents owner repo path "main" = .httpError status → status ≠ 404 →
        fetchGitHubContents env owner repo path "main" = .error ()) := by
  intro h
  have h2 := h envC7 "o" "r" "" 500 rfl (by decide)
  have h3 : fetchGitHubContents envC7 "o" "r" "" "main" =
      .ok [{ c7file with branch := some "master" }] := rfl
  rw [h3] at h2
  exact Except.noConfusion h2

/-- C7 amended: the `main` → `master` fallback fires on every error HTTP
response for `main` regardless of status (including transient 5xx), and a
thrown network-level error does not trigger the fallback. -/
theorem c7_fallback_on_http_error (env : AnalyzerEnv) (owner repo path : String) :
    (∀ status, env.contents owner repo path "main" = .httpError status →
      fetchGitHubContents env owner repo path "main" =
        (match env.contents owner repo path "master" with
         | .ok files => .ok (files.map (fun f => { f with branch := some "master" }))
         | _ => .error ())) ∧
    (env.contents owner repo path "main" = .netError →
      fetchGitHubContents env owner repo path "main" = .error ()) := by
  constructor
  · intro status hmain
    simp [fetchGitHubContents, hmain]
  · intro hmain
    simp only [fetchGitHubContents, hmain]

/-- Witness for C7's amended theorem at the concrete environment `envC7`. -/
theorem c7_fallback_on_http_error_witness :
    fetchGitHubContents envC7 "o" "r" "" "main" =
      .ok [{ c7file with branch := some "master" }] := by
  have h := (c7_fallback_on_http_error envC7 "o" "r" "").1 500 rfl
  simpa using h

/-! ### C8 -/

/-- C8 counterexample: when the branch-list fetch fails, the harvest returns
zero files, so the run terminates with the zero-analyzable-files error instead
of emitting a report. -/
theorem c8_report_after_branch_failure_counterexample :
    (envStub.branches "a" "b").isOk = false ∧
    analyzeGitHubRepository envStub "https://github.com/a/b" true =
      .error AnalyzeError.noAnalyzableFiles := by
  constructor
  · rfl
  · rfl

/-- C8 amended: a branch-list failure is non-fatal at the harvesting stage —
`getAllFilesFromAllBranches` degrades to zero branches and an empty file list
without throwing — but the overall run then terminates with the explicit
zero-analyzable-files error, because nothing was harvested. -/
theorem c8_branch_failure_degrades (env : AnalyzerEnv) (url : String)
    (inc : Bool) (owner0 repo0 : String)
    (hparse : parseGitHubUrl url = some (owner0, repo0))
    (hfail : (env.branches (resolveIdentity env owner0 repo0).owner
      (resolveIdentity env owner0 repo0).repo).isOk = false) :
    getAllFilesFromAllBranches env (resolveIdentity env owner0 repo0).owner
      (resolveIdentity env owner0 repo0).repo = ([], 0) ∧
    analyzeGitHubRepository env url inc = .error AnalyzeError.noAnalyzableFiles := by
  have hbr : fetchGitHubBranches env (resolveIdentity env owner0 repo0).owner
      (resolveIdentity env owner0 repo0).repo = [] := by
    unfold fetchGitHubBranches
    cases hb : env.branches (resolveIdentity env owner0 repo0).owner
        (resolveIdentity env owner0 repo0).repo with
    | ok v => rw [hb] at hfail; exact absurd hfail (by simp [FetchResult.isOk])
    | httpError st => rfl
    | netError => rfl
  have hharvest : getAllFilesFromAllBranches env
      (resolveIdentity env owner0 repo0).owner
      (resolveIdentity env owner0 repo0).repo = ([], 0) := by
    simp [getAllFilesFromAllBranches, hbr, insertionSortBy]
  refine ⟨hharvest, ?_⟩
  simp only [analyzeGitHubRepository, hparse, hharvest]
  rfl

/-- Witness for C8's amended theorem at the concrete environment `envStub`. -/
theorem c8_branch_failure_degrades_witness :
    getAllFilesFromAllBranches envStub
      (resolveIdentity envStub "a" "b").owner
      (resolveIdentity envStub "a" "b").repo = ([], 0) ∧
    analyzeGitHubRepository envStub "https://github.com/a/b" true =
      .error AnalyzeError.noAnalyzableFiles :=
  c8_branch_failure_degrades envStub "https://github.com/a/b" true "a" "b"
    rfl rfl

/-! ### Decimal-key injectivity -/

/-- Two strings with equal character data are equal. -/
theorem string_eq_of_data {s t : String} (h : s.data = t.data) : s = t := by
  cases s; cases t; exact congrArg String.mk h

/-- The membership form of `List.contains` for seen-key lists. -/
theorem contains_mem_iff (l : List String) (x : String) :
    l.contains x = true ↔ x ∈ l := by
  simp [List.contains, List.elem_iff]

/-- `Nat.digitChar` yields no hyphen on digits. -/
theorem digitChar_ne_hyphen (d : Nat) (hd : d < 10) : Nat.digitChar d ≠ '-' := by
  interval_cases d <;> decide

/-- Decimal renderings contain no hyphen. -/
theorem decDigitsAux_ne_hyphen : ∀ fuel n : Nat, '-' ∉ decDigitsAux fuel n := by
  intro fuel
  induction fuel with
  | zero => intro n; simp [decDigitsAux]
  | succ f ih =>
    intro n
    simp only [decDigitsAux]
    split_ifs with h
    · intro hm
      simp only [List.mem_singleton] at hm
      exact digitChar_ne_hyphen n h hm.symm
    · intro hm
      rcases List.mem_append.mp hm with hm | hm
      · exact ih (n / 10) hm
      · simp only [List.mem_singleton] at hm
        exact digitChar_ne_hyphen (n % 10) (Nat.mod_lt n (by norm_num)) hm.symm

/-- Appending one digit multiplies the value by ten. -/
theorem decVal_append_digit (l : List Char) (c : Char) :
    decVal (l ++ [c]) = 10 * decVal l + (c.toNat - 48) := by
  simp [decVal, List.foldl_append]

/-- `digitChar` composed with the digit-value extraction is the identity
below ten. -/
theorem digitChar_val (d : Nat) (h : d < 10) : (Nat.digitChar d).toNat - 48 = d := by
  interval_cases d <;> decide

/-- `decVal` is a left inverse of the decimal rendering (given enough fuel). -/
theorem decVal_decDigitsAux : ∀ fuel n : Nat, n < 10 ^ fuel →
    decVal (decDigitsAux fuel n) = n := by
  intro fuel
  induction fuel with
  | zero =>
    intro n h
    have hn : n = 0 := by simpa using Nat.lt_one_iff.mp (by simpa using h)
    subst hn
    simp [decDigitsAux, decVal]
  | succ f ih =>
    intro n h
    simp only [decDigitsAux]
    split_ifs with h10
    · simp [decVal, digitChar_val n h10]
    · have hdiv : n / 10 < 10 ^ f := by
        have hmul : n < 10 * 10 ^ f := by
          calc n < 10 ^ (f + 1) := h
            _ = 10 * 10 ^ f := by ring
        exact Nat.div_lt_of_lt_mul hmul
      rw [decVal_append_digit, ih (n / 10) hdiv,
        digitChar_val (n % 10) (Nat.mod_lt n (by norm_num))]
      omega

/-- The decimal rendering of naturals is injective. -/
theorem natDecimal_injective : Function.Injective natDecimal := by
  intro a b h
  have hd : decDigitsAux (a + 1) a = decDigitsAux (b + 1) b := by
    have h2 := congrArg String.data h
    simpa [natDecimal] using h2
  have ha : a < 10 ^ (a + 1) :=
    lt_of_lt_of_le (Nat.lt_pow_self (by norm_num) a)
      (Nat.pow_le_pow_right (by norm_num) (Nat.le_succ a))
  have hb : b < 10 ^ (b + 1) :=
    lt_of_lt_of_le (Nat.lt_pow_self (by norm_num) b)
      (Nat.pow_le_pow_right (by norm_num) (Nat.le_succ b))
  have h3 := congrArg decVal hd
  rwa [decVal_decDigitsAux _ _ ha, decVal_decDigitsAux _ _ hb] at h3

/-- A concatenation `e ++ '-' :: r` with hyphen-free `e` determines `e` and
`r` uniquely. -/
theorem hyphen_split_unique : ∀ e1 e2 r1 r2 : List Char,
    '-' ∉ e1 → '-' ∉ e2 → e1 ++ '-' :: r1 = e2 ++ '-' :: r2 →
    e1 = e2 ∧ r1 = r2 := by
  intro e1
  induction e1 with
  | nil =>
    intro e2 r1 r2 _ h2 heq
    cases e2 with
    | nil => simpa using heq
    | cons c cs =>
      simp only [List.nil_append, List.cons_append, List.cons.injEq] at heq
      exact absurd (List.mem_cons.mpr (Or.inl heq.1)) h2
  | cons c cs ih =>
    intro e2 r1 r2 h1 h2 heq
    cases e2 with
    | nil =>
      simp only [List.nil_append, List.cons_append, List.cons.injEq] at heq
      exact absurd (List.mem_cons.mpr (Or.inl heq.1.symm)) h1
    | cons d ds =>
      simp only [List.cons_append, List.cons.injEq] at heq
      obtain ⟨hcd, htail⟩ := heq
      have h1' : '-' ∉ cs := fun hm => h1 (List.mem_cons_of_mem _ hm)
      have h2' : '-' ∉ ds := fun hm => h2 (List.mem_cons_of_mem _ hm)
      obtain ⟨he, hr⟩ := ih ds r1 r2 h1' h2' htail
      exact ⟨by rw [hcd, he], hr⟩

/-- The deduplication key `path ++ "-" ++ size` determines path and size:
the size part is hyphen-free, so the last hyphen splits the key uniquely. -/
theorem fileKey_path_size (f g : GitHubFile) (h : fileKey f = fileKey g) :
    f.path = g.path ∧ f.size = g.size := by
  have hd : f.path.data ++ '-' :: (natDecimal f.size).data =
      g.path.data ++ '-' :: (natDecimal g.size).data := by
    have h2 := congrArg String.data h
    simpa [fileKey, String.data_append] using h2
  have hrev : (natDecimal f.size).data.reverse ++ '-' :: f.path.data.reverse =
      (natDecimal g.size).data.reverse ++ '-' :: g.path.data.reverse := by
    have h3 := congrArg List.reverse hd
    simpa [List.reverse_append] using h3
  have hf : '-' ∉ (natDecimal f.size).data.reverse := by
    rw [List.mem_reverse]
    exact decDigitsAux_ne_hyphen _ _
  have hg : '-' ∉ (natDecimal g.size).data.reverse := by
    rw [List.mem_reverse]
    exact decDigitsAux_ne_hyphen _ _
  obtain ⟨hsz, hpath⟩ := hyphen_split_unique _ _ _ _ hf hg hrev
  constructor
  · exact string_eq_of_data (List.reverse_injective hpath)
  · exact natDecimal_injective
      (string_eq_of_data (List.reverse_injective hsz))

/-! ### Deduplication-fold lemmas -/

/-- The seen-key list always mirrors the kept files. -/
theorem dedup_seen_eq (fs : List GitHubFile) :
    ∀ acc : List GitHubFile × List String, acc.2 = acc.1.map fileKey →
      (fs.foldl dedupStep acc).2 = (fs.foldl dedupStep acc).1.map fileKey := by
  induction fs with
  | nil => intro acc h; exact h
  | cons f fs ih =>
    intro acc h
    simp only [List.foldl_cons]
    apply ih
    simp only [dedupStep]
    split_ifs
    · exact h
    · simp [h]

/-- The seen-key list only grows along the fold. -/
theorem dedup_seen_mono (fs : List GitHubFile) :
    ∀ (acc : List GitHubFile × List String) (x : String),
      x ∈ acc.2 → x ∈ (fs.foldl dedupStep acc).2 := by
  induction fs with
  | nil => intro acc x hx; exact hx
  | cons f fs ih =>
    intro acc x hx
    simp only [List.foldl_cons]
    apply ih
    simp only [dedupStep]
    split_ifs
    · exact hx
    · exact List.mem_append_left _ hx

/-- Every processed key ends up seen. -/
theorem dedup_key_seen (fs : List GitHubFile) :
    ∀ (acc : List GitHubFile × List String) (f : GitHubFile), f ∈ fs →
      fileKey f ∈ (fs.foldl dedupStep acc).2 := by
  induction fs with
  | nil => intro _ _ hf; exact absurd hf (List.not_mem_nil _)
  | cons g fs ih =>
    intro acc f hf
    rcases List.mem_cons.mp hf with rfl | hf
    · simp only [List.foldl_cons]
      apply dedup_seen_mono
      simp only [dedupStep]
      split_ifs with hc
      · exact (contains_mem_iff _ _).mp hc
      · exact List.mem_append_right _ (List.mem_singleton.mpr rfl)
    · exact ih _ f hf

/-- Folding files whose keys are all already seen changes nothing. -/
theorem dedup_fold_of_seen (fs : List GitHubFile) :
    ∀ acc : List GitHubFile × List String,
      (∀ f ∈ fs, fileKey f ∈ acc.2) → fs.foldl dedupStep acc = acc := by
  induction fs with
  | nil => intro acc _; rfl
  | cons f fs ih =>
    intro acc h
    have hstep : dedupStep acc f = acc := by
      simp only [dedupStep]
      rw [if_pos ((contains_mem_iff _ _).mpr (h f (List.mem_cons_self f fs)))]
    simp only [List.foldl_cons, hstep]
    exact ih acc (fun g hg => h g (List.mem_cons_of_mem f hg))

/-- The fold keeps the key list duplicate-free. -/
theorem dedup_nodup (fs : List GitHubFile) :
    ∀ acc : List GitHubFile × List String,
      acc.2 = acc.1.map fileKey → acc.2.Nodup →
      (fs.foldl dedupStep acc).2.Nodup := by
  induction fs with
  | nil => intro acc _ h2; exact h2
  | cons f fs ih =>
    intro acc h1 h2
    simp only [List.foldl_cons]
    apply ih
    · simp only [dedupStep]
      split_ifs
      · exact h1
      · simp [h1]
    · simp only [dedupStep]
      split_ifs with hc
      · exact h2
      · have hnotmem : fileKey f ∉ acc.2 := fun hm =>
          hc ((contains_mem_iff _ _).mpr hm)
        simp [List.nodup_append, h2, hnotmem]

/-! ### Harvest-level lemmas -/

/-- One harvested branch preserves the seen = kept-keys invariant. -/
theorem harvestBranchFold_seen_eq (env : AnalyzerEnv) (owner repo : String)
    (acc : List GitHubFile × List String) (b : GitHubBranch)
    (h : acc.2 = acc.1.map fileKey) :
    (harvestBranchFold env owner repo acc b).2 =
      (harvestBranchFold env owner repo acc b).1.map fileKey := by
  unfold harvestBranchFold
  cases hg : getAllFilesFrom env owner repo 4 "" b.name with
  | ok fs => exact dedup_seen_eq fs acc h
  | error e => exact h

/-- One harvested branch only grows the seen-key list. -/
theorem harvestBranchFold_seen_mono (env : AnalyzerEnv) (owner repo : String)
    (acc : List GitHubFile × List String) (b : GitHubBranch) (x : String)
    (hx : x ∈ acc.2) : x ∈ (harvestBranchFold env owner repo acc b).2 := by
  unfold harvestBranchFold
  cases hg : getAllFilesFrom env owner repo 4 "" b.name with
  | ok fs => exact dedup_seen_mono fs acc x hx
  | error e => exact hx

/-- One harvested branch keeps the seen keys duplicate-free. -/
theorem harvestBranchFold_nodup (env : AnalyzerEnv) (owner repo : String)
    (acc : List GitHubFile × List String) (b : GitHubBranch)
    (h1 : acc.2 = acc.1.map fileKey) (h2 : acc.2.Nodup) :
    (harvestBranchFold env owner repo acc b).2.Nodup := by
  unfold harvestBranchFold
  cases hg : getAllFilesFrom env owner repo 4 "" b.name with
  | ok fs => exact dedup_nodup fs acc h1 h2
  | error e => exact h2

/-- The branch fold preserves the seen = kept-keys invariant. -/
theorem harvestFold_seen_eq (env : AnalyzerEnv) (owner repo : String) :
    ∀ (bs : List GitHubBranch) (acc : List GitHubFile × List String),
      acc.2 = acc.1.map fileKey →
      (bs.foldl (harvestBranchFold env owner repo) acc).2 =
        (bs.foldl (harvestBranchFold env owner repo) acc).1.map fileKey := by
  intro bs
  induction bs with
  | nil => intro acc h; exact h
  | cons b bs ih =>
    intro acc h
    exact ih _ (harvestBranchFold_seen_eq env owner repo acc b h)

/-- The branch fold only grows the seen-key list. -/
theorem harvestFold_seen_mono (env : AnalyzerEnv) (owner repo : String) :
    ∀ (bs : List GitHubBranch) (acc : List GitHubFile × List String) (x : String),
      x ∈ acc.2 → x ∈ (bs.foldl (harvestBranchFold env owner repo) acc).2 := by
  intro bs
  induction bs with
  | nil => intro acc x hx; exact hx
  | cons b bs ih =>
    intro acc x hx
    exact ih _ x (harvestBranchFold_seen_mono env owner repo acc b x hx)

/-- The branch fold keeps the seen keys duplicate-free. -/
theorem harvestFold_nodup (env : AnalyzerEnv) (owner repo : String) :
    ∀ (bs : List GitHubBranch) (acc : List GitHubFile × List String),
      acc.2 = acc.1.map fileKey → acc.2.Nodup →
      (bs.foldl (harvestBranchFold env owner repo) acc).2.Nodup := by
  intro bs
  induction bs with
  | nil => intro acc _ h2; exact h2
  | cons b bs ih =>
    intro acc h1 h2
    exact ih _ (harvestBranchFold_seen_eq env owner repo acc b h1)
      (harvestBranchFold_nodup env owner repo acc b h1 h2)

/-- Repeating the harvest of one branch changes nothing. -/
theorem harvestBranchFold_idem (env : AnalyzerEnv) (owner repo : String)
    (acc : List GitHubFile × List String) (b : GitHubBranch) :
    harvestBranchFold env owner repo (harvestBranchFold env owner repo acc b) b
      = harvestBranchFold env owner repo acc b := by
  unfold harvestBranchFold
  cases hg : getAllFilesFrom env owner repo 4 "" b.name with
  | ok fs =>
    exact dedup_fold_of_seen fs _ (fun f hf => dedup_key_seen fs acc f hf)
  | error e => rfl

/-- The harvested key list is duplicate-free. -/
theorem getAllFilesFromAllBranches_key_nodup (env : AnalyzerEnv)
    (owner repo : String) :
    ((getAllFilesFromAllBranches env owner repo).1.map fileKey).Nodup := by
  have h1 := harvestFold_seen_eq env owner repo
    (insertionSortBy branchLe (fetchGitHubBranches env owner repo)) ([], []) rfl
  have h2 := harvestFold_nodup env owner repo
    (insertionSortBy branchLe (fetchGitHubBranches env owner repo)) ([], []) rfl
    List.nodup_nil
  rw [h1] at h2
  exact h2

/-- Every file of a successfully harvested branch is represented in the
deduplicated result by an entry with the same path and size. -/
theorem harvest_retention (env : AnalyzerEnv) (owner repo : String)
    (b : GitHubBranch) (fs : List GitHubFile) (f : GitHubFile)
    (hb : b ∈ fetchGitHubBranches env owner repo)
    (hok : getAllFilesFrom env owner repo 4 "" b.name = Except.ok fs)
    (hf : f ∈ fs) :
    ∃ g ∈ (getAllFilesFromAllBranches env owner repo).1,
      g.path = f.path ∧ g.size = f.size := by
  have hbs : b ∈ insertionSortBy branchLe (fetchGitHubBranches env owner repo) :=
    ((insertionSortBy_perm branchLe _).mem_iff).mpr hb
  obtain ⟨s, t, hsplit⟩ := List.append_of_mem hbs
  have hseen : fileKey f ∈
      ((insertionSortBy branchLe (fetchGitHubBranches env owner repo)).foldl
        (harvestBranchFold env owner repo) ([], [])).2 := by
    rw [hsplit, List.foldl_append, List.foldl_cons]
    apply harvestFold_seen_mono
    have hmid : harvestBranchFold env owner repo
        (s.foldl (harvestBranchFold env owner repo) ([], [])) b
        = fs.foldl dedupStep (s.foldl (harvestBranchFold env owner repo) ([], [])) := by
      unfold harvestBranchFold
      rw [hok]
    rw [hmid]
    exact dedup_key_seen fs _ f hf
  have heq := harvestFold_seen_eq env owner repo
    (insertionSortBy branchLe (fetchGitHubBranches env owner repo)) ([], []) rfl
  rw [heq] at hseen
  obtain ⟨g, hg, hgk⟩ := List.mem_map.mp hseen
  obtain ⟨hp, hs⟩ := fileKey_path_size g f hgk
  exact ⟨g, hg, hp, hs⟩

/-! ### C5 -/

/-- C5: the multi-branch harvest deduplicates by the key `(path, size)`:
re-harvesting a branch is idempotent, no two result entries share a
`(path, size)` pair, every file of a fetched branch is represented by an
entry with its path and size (so a same-path different-size file is retained
separately), a file whose key was already seen is dropped (first seen wins),
and the two-branch `README.md` (size 120) scenario yields exactly the one
entry first seen on `main`. -/
theorem c5_harvest_dedup (env : AnalyzerEnv) (owner repo : String) :
    (∀ (acc : List GitHubFile × List String) (b : GitHubBranch),
      harvestBranchFold env owner repo (harvestBranchFold env owner repo acc b) b
        = harvestBranchFold env owner repo acc b) ∧
    ((getAllFilesFromAllBranches env owner repo).1.map
      (fun f => (f.path, f.size))).Nodup ∧
    (∀ (b : GitHubBranch) (fs : List GitHubFile) (f : GitHubFile),
      b ∈ fetchGitHubBranches env owner repo →
      getAllFilesFrom env owner repo 4 "" b.name = Except.ok fs → f ∈ fs →
      ∃ g ∈ (getAllFilesFromAllBranches env owner repo).1,
        g.path = f.path ∧ g.size = f.size) ∧
    (∀ (acc : List GitHubFile × List String) (f : GitHubFile),
      acc.2.contains (fileKey f) = true → dedupStep acc f = acc) ∧
    ((getAllFilesFromAllBranches envC5 "o" "r").1.map
        (fun f => (f.path, f.size, f.branch)) = [("README.md", 120, some "main")] ∧
      (getAllFilesFromAllBranches envC5 "o" "r").2 = 2) := by
  refine ⟨harvestBranchFold_idem env owner repo, ?_, harvest_retention env owner repo,
    ?_, ?_, ?_⟩
  · have hkeys := getAllFilesFromAllBranches_key_nodup env owner repo
    have hcomp : (getAllFilesFromAllBranches env owner repo).1.map fileKey =
        ((getAllFilesFromAllBranches env owner repo).1.map
          (fun f => (f.path, f.size))).map
          (fun pr => pr.1 ++ "-" ++ natDecimal pr.2) := by
      rw [List.map_map]
      rfl
    rw [hcomp] at hkeys
    exact List.Nodup.of_map _ hkeys
  · intro acc f hc
    simp only [dedupStep]
    rw [if_pos hc]
  · decide
  · decide

/-- Witness for C5: the second branch's copy of `README.md` is represented in
the deduplicated result (by the entry first seen on `main`). -/
theorem c5_harvest_dedup_witness :
    ∃ g ∈ (getAllFilesFromAllBranches envC5 "o" "r").1,
      g.path = "README.md" ∧ g.size = 120 :=
  (c5_harvest_dedup envC5 "o" "r").2.2.1 { name := "dev" }
    [{ readmeFile with branch := some "dev" }]
    { readmeFile with branch := some "dev" }
    (by decide) rfl (List.mem_singleton.mpr rfl)

/-! ### C3 -/

/-- C3: the top-level run terminates with an error in exactly two cases — the
URL fails to parse (`invalidUrl`), or zero harvested files pass the
analyzability filter (`noAnalyzableFiles`) — and whenever the URL parses and
some file passes the filter, the run produces a report, regardless of every
other outcome in the environment. -/
theorem c3_fatal_error_cases (env : AnalyzerEnv) (url : String) (inc : Bool) :
    (analyzeGitHubRepository env url inc = .error AnalyzeError.invalidUrl ↔
      parseGitHubUrl url = none) ∧
    (∀ owner0 repo0, parseGitHubUrl url = some (owner0, repo0) →
      ((analyzeGitHubRepository env url inc = .error AnalyzeError.noAnalyzableFiles ↔
        (getAllFilesFromAllBranches env (resolveIdentity env owner0 repo0).owner
          (resolveIdentity env owner0 repo0).repo).1.filter analyzeableFilter = []) ∧
       ((getAllFilesFromAllBranches env (resolveIdentity env owner0 repo0).owner
          (resolveIdentity env owner0 repo0).repo).1.filter analyzeableFilter ≠ [] →
        ∃ report, analyzeGitHubRepository env url inc = .ok report))) := by
  cases hp : parseGitHubUrl url with
  | none =>
    constructor
    · simp [analyzeGitHubRepository, hp]
    · intro o r habs
      exact absurd habs (by simp)
  | some pr =>
    obtain ⟨o0, r0⟩ := pr
    constructor
    · constructor
      · intro h
        simp only [analyzeGitHubRepository, hp] at h
        split_ifs at h <;> simp at h
      · intro h
        exact absurd h (by simp)
    · intro o r hsome
      have hpair : o0 = o ∧ r0 = r := by
        have := Option.some.inj hsome
        exact ⟨congrArg Prod.fst this, congrArg Prod.snd this⟩
      obtain ⟨rfl, rfl⟩ := hpair
      by_cases hemp : (getAllFilesFromAllBranches env
          (resolveIdentity env o0 r0).owner
          (resolveIdentity env o0 r0).repo).1.filter analyzeableFilter = []
      · have hemp2 : ((getAllFilesFromAllBranches env
            (resolveIdentity env o0 r0).owner
            (resolveIdentity env o0 r0).repo).1.filter analyzeableFilter).isEmpty
              = true := by
          simp [hemp]
        constructor
        · constructor
          · intro _; exact hemp
          · intro _
            simp only [analyzeGitHubRepository, hp]
            rw [if_pos hemp2]
        · intro hne; exact absurd hemp hne
      · have hemp2 : ((getAllFilesFromAllBranches env
            (resolveIdentity env o0 r0).owner
            (resolveIdentity env o0 r0).repo).1.filter analyzeableFilter).isEmpty
              = false := by
          simpa [List.isEmpty_iff] using hemp
        constructor
        · constructor
          · intro h
            simp only [analyzeGitHubRepository, hp] at h
            rw [if_neg (by simp [hemp2])] at h
            exact absurd h (by simp)
          · intro h; exact absurd h hemp
        · intro _
          simp only [analyzeGitHubRepository, hp]
          rw [if_neg (by simp [hemp2])]
          exact ⟨_, rfl⟩

/-- Witness for C3 at a concrete environment with one analyzable file: the
run produces a report even though metadata, commit and all other fetches
fail. -/
theorem c3_fatal_error_cases_witness :
    ∃ report, analyzeGitHubRepository envC3 "https://github.com/a/b" true
      = .ok report :=
  ((c3_fatal_error_cases envC3 "https://github.com/a/b" true).2 "a" "b" rfl).2
    (by decide)

/-! ### C10 -/

/-- C10: on the two-commit scenario (both messages `"feat: add login"`, same
author, stats totals 20 and 5), exactly one structural pattern matches each
message, giving confidence 0.45 and `isAI = false` for both commits, and the
single contributor aggregate has `totalCommits = 2` and
`aiCommitPercentage = 0`, for every date parser. -/
theorem c10_scenario :
    (analyzeCommitMessage "feat: add login").reasons =
      ["Matches AI pattern: ^(feat|fix|docs|style|refactor|test|chore|ci|build|perf)(\\(.+\\))?\\:\\s.+$"] ∧
    (analyzeCommitMessage "feat: add login").confidence = 45/100 ∧
    (analyzeCommitMessage "feat: add login").isAI = false ∧
    c10commitA.isAI = false ∧ c10commitB.isAI = false ∧
    c10commitA.confidence = 45/100 ∧ c10commitB.confidence = 45/100 ∧
    ∀ getTime : String → ℚ,
      (computeContributors getTime [c10commitA, c10commitB]).map
        (fun s => (s.totalCommits, s.aiCommitPercentage)) = [(2, 0)] := by
  have hinv : hasInvisibleChars "feat: add login" = false := by decide
  have hemo : hasEmoji "feat: add login" = false := by decide
  have hlen : ¬ ("feat: add login".length > 100) := by decide
  have hmat : (matchedAiPatterns "feat: add login").map
      (fun p => "Matches AI pattern: " ++ p.source) =
      ["Matches AI pattern: ^(feat|fix|docs|style|refactor|test|chore|ci|build|perf)(\\(.+\\))?\\:\\s.+$"] := by
    decide
  have hmatlen : (matchedAiPatterns "feat: add login").length = 1 := by decide
  have hgram : grammarScore "feat: add login" = 0 := by decide
  have hreasons : (analyzeCommitMessage "feat: add login").reasons =
      ["Matches AI pattern: ^(feat|fix|docs|style|refactor|test|chore|ci|build|perf)(\\(.+\\))?\\:\\s.+$"] := by
    simp [analyzeCommitMessage, hinv, hemo, hlen, hmat, hgram]
  have hconf : (analyzeCommitMessage "feat: add login").confidence = 45/100 := by
    simp only [analyzeCommitMessage, hinv, Bool.false_eq_true, if_false]
    norm_num [hemo, hmatlen, hlen, hgram]
  have hisai : (analyzeCommitMessage "feat: add login").isAI = false := by
    simp only [analyzeCommitMessage, hinv, Bool.false_eq_true, if_false]
    norm_num [hemo, hmatlen, hlen, hgram]
  have haA : c10commitA.isAI = false := hisai
  have haB : c10commitB.isAI = false := hisai
  have hcA : c10commitA.confidence = 45/100 := hconf
  have hcB : c10commitB.confidence = 45/100 := hconf
  refine ⟨hreasons, hconf, hisai, haA, haB, hcA, hcB, ?_⟩
  intro getTime
  have hkey : contributorKey c10commitB = contributorKey c10commitA := rfl
  have hfold : contributorFold getTime [c10commitA, c10commitB] =
      [(contributorKey c10commitA,
        updateContributor getTime c10commitB
          (updateContributor getTime c10commitA (initContributor c10commitA)))] := by
    simp [contributorFold, foldContributorOne, updateFirst, hkey]
  have htc : (updateContributor getTime c10commitB
      (updateContributor getTime c10commitA
        (initContributor c10commitA))).totalCommits = 2 := by
    rw [updateContributor_totalCommits, updateContributor_totalCommits]
    rfl
  have hown : [c10commitA, c10commitB].filter
      (fun c => decide (contributorKey c = contributorKey c10commitA)) =
      [c10commitA, c10commitB] := by
    simp [List.filter, hkey]
  simp only [computeContributors, hfold, List.map_cons, List.map_nil,
    insertionSortBy, insertOrd]
  simp only [finalizeContributor, hown, List.map_cons, List.map_nil]
  have hainone : ([c10commitA, c10commitB].filter (fun c => c.isAI)).length = 0 := by
    simp [List.filter, haA, haB]
  simp only [hainone, htc]
  norm_num

